import Mathlib

/-!
# Deployment mapping layer: expand, flatten and patch

A shallow embedding of `kubernetes/structure_deployment.go`.

* Go `interface{}` values are the inductive `Value`; every dynamic type that the
  functions meet has its own constructor, so `int`, `int32` and `int64` are kept apart
  exactly as a Go type assertion keeps them apart.
* A function that can panic (failed type assertion, nil dereference) returns `Option`,
  with `none` standing for the panic.
* Pointers are `Option`: `none` is the nil pointer.
* Go maps are association lists read with `List.lookup`; nil and empty maps, and nil and
  empty slices, are identified (the code only ever takes their `len`).
* Fixed-width integers are `Int` with an explicit wrap at the conversion.
-/

namespace Kubernetes

/-! ## Dynamic values -/

/-- Go values as they sit behind `interface{}` in a configuration tree. -/
inductive Value where
  | nil
  | int (n : Int)
  | int32 (n : Int)
  | int64 (n : Int)
  | bool (b : Bool)
  | str (s : String)
  | list (l : List Value)
  | map (m : List (String × Value))
  | strMap (m : List (String × String))
  | strMapList (l : List (List (String × String)))
  | set (l : List Value)

/-- The fields of a `map[string]interface{}`. -/
abbrev Fields := List (String × Value)

/-- The panicking assertion `v.(int)`. -/
def Value.asInt : Value → Option Int
  | .int n => some n
  | _ => none

/-- The panicking assertion `v.(bool)`. -/
def Value.asBool : Value → Option Bool
  | .bool b => some b
  | _ => none

/-- The panicking assertion `v.(string)`. -/
def Value.asString : Value → Option String
  | .str s => some s
  | _ => none

/-- The panicking assertion `v.([]interface{})`. -/
def Value.asList : Value → Option (List Value)
  | .list l => some l
  | _ => none

/-- The comma-ok assertion `m[k].(int)`: `none` is `ok == false`, which a missing key
gives as well. -/
def getInt (m : Fields) (k : String) : Option Int :=
  match m.lookup k with
  | some (.int n) => some n
  | _ => none

/-- The comma-ok assertion `m[k].(string)`. -/
def getString (m : Fields) (k : String) : Option String :=
  match m.lookup k with
  | some (.str s) => some s
  | _ => none

/-- The comma-ok assertion `m[k].(map[string]interface{})`. -/
def getMap (m : Fields) (k : String) : Option Fields :=
  match m.lookup k with
  | some (.map f) => some f
  | _ => none

/-- The comma-ok assertion `m[k].([]interface{})`. -/
def getList (m : Fields) (k : String) : Option (List Value) :=
  match m.lookup k with
  | some (.list l) => some l
  | _ => none

/-- The assignment `m[k] = v` on a Go map. -/
def setKey (m : Fields) (k : String) (v : Value) : Fields :=
  m.filter (fun e => e.1 != k) ++ [(k, v)]

/-! ## Machine integers -/

/-- The conversion `int32(i)`: reduction modulo `2^32` into the signed range. -/
def wrap32 (i : Int) : Int := (i + 2147483648) % 4294967296 - 2147483648

/-- The range of `int32`. -/
def inInt32 (i : Int) : Prop := -2147483648 ≤ i ∧ i ≤ 2147483647

instance (i : Int) : Decidable (inInt32 i) := by unfold inInt32; infer_instance

/-- Decimal value of a digit character. -/
def digitVal (c : Char) : Option Nat :=
  if '0' ≤ c ∧ c ≤ '9' then some (c.toNat - 48) else none

/-- Left-to-right accumulation of decimal digits; `none` on any other character. -/
def parseDigits : List Char → Nat → Option Nat
  | [], acc => some acc
  | c :: cs, acc =>
    match digitVal c with
    | some d => parseDigits cs (acc * 10 + d)
    | none => none

/-- A non-empty run of decimal digits. -/
def parseNat (cs : List Char) : Option Nat :=
  match cs with
  | [] => none
  | _ :: _ => parseDigits cs 0

/-- Go `strconv.Atoi` for a 64-bit `int`: an optional sign, then one or more decimal
digits, and the value has to fit the type; `none` is `err != nil`. -/
def atoi (s : String) : Option Int :=
  match s.toList with
  | [] => none
  | c :: ds =>
    if c = '-' then
      (parseNat ds).bind fun n =>
        if n ≤ 9223372036854775808 then some (-(n : Int)) else none
    else if c = '+' then
      (parseNat ds).bind fun n =>
        if n ≤ 9223372036854775807 then some (n : Int) else none
    else
      (parseNat (c :: ds)).bind fun n =>
        if n ≤ 9223372036854775807 then some (n : Int) else none

/-! ## API objects -/

/-- `ex_v1beta1.RollbackConfig`. -/
structure RollbackConfig where
  Revision : Int
deriving DecidableEq, Repr

/-- `metav1.LabelSelectorRequirement`. -/
structure LabelSelectorRequirement where
  Key : String
  Operator : String
  Values : List String
deriving DecidableEq, Repr

/-- `metav1.LabelSelector`. -/
structure LabelSelector where
  MatchLabels : List (String × String)
  MatchExpressions : List LabelSelectorRequirement
deriving DecidableEq, Repr

/-- `intstr.Type`: which form an `IntOrString` is in. -/
inductive IntStrType where
  | Int
  | String
deriving DecidableEq, Repr

/-- `intstr.IntOrString`. -/
structure IntOrString where
  Typ : IntStrType
  IntVal : Int
  StrVal : String
deriving DecidableEq, Repr

/-- `ex_v1beta1.RollingUpdateDeployment`. -/
structure RollingUpdateDeployment where
  MaxUnavailable : Option IntOrString
  MaxSurge : Option IntOrString
deriving DecidableEq, Repr

/-- `ex_v1beta1.DeploymentStrategy`. -/
structure DeploymentStrategy where
  Typ : String
  RollingUpdate : Option RollingUpdateDeployment
deriving DecidableEq, Repr

/-- `v1.PodTemplateSpec`, over the metadata and pod-spec objects of the two mappers this
file does not own. -/
structure PodTemplateSpec (Meta Pod : Type) where
  ObjectMeta : Meta
  Spec : Pod
deriving DecidableEq, Repr

/-- `ex_v1beta1.DeploymentSpec`. -/
structure DeploymentSpec (Meta Pod : Type) where
  Replicas : Option Int
  Selector : Option LabelSelector
  Template : PodTemplateSpec Meta Pod
  Strategy : DeploymentStrategy
  MinReadySeconds : Int
  RevisionHistoryLimit : Option Int
  Paused : Bool
  RollbackTo : Option RollbackConfig
  ProgressDeadlineSeconds : Option Int
deriving DecidableEq, Repr

/-- `ex_v1beta1.DeploymentCondition`, the four fields the code touches. -/
structure DeploymentCondition where
  Typ : String
  Status : String
  Reason : String
  Message : String
deriving DecidableEq, Repr

/-- `ex_v1beta1.DeploymentStatus`. -/
structure DeploymentStatus where
  ObservedGeneration : Int
  Replicas : Int
  UpdatedReplicas : Int
  ReadyReplicas : Int
  AvailableReplicas : Int
  UnavailableReplicas : Int
  Conditions : List DeploymentCondition
deriving DecidableEq, Repr

/-- The composite literal `RollbackConfig{}`. -/
def RollbackConfig.zero : RollbackConfig := ⟨0⟩

/-- The composite literal `LabelSelector{}`. -/
def LabelSelector.zero : LabelSelector := ⟨[], []⟩

/-- The composite literal `RollingUpdateDeployment{}`. -/
def RollingUpdateDeployment.zero : RollingUpdateDeployment := ⟨none, none⟩

/-- The composite literal `DeploymentStrategy{}`. -/
def DeploymentStrategy.zero : DeploymentStrategy := ⟨"", none⟩

/-- The composite literal `DeploymentCondition{}`. -/
def DeploymentCondition.zero : DeploymentCondition := ⟨"", "", "", ""⟩

/-- The composite literal `DeploymentStatus{}`. -/
def DeploymentStatus.zero : DeploymentStatus := ⟨0, 0, 0, 0, 0, 0, []⟩

section Objects

variable {Meta Pod : Type} [Inhabited Meta] [Inhabited Pod]

/-- The composite literal `PodTemplateSpec{}`; `default` is the zero value of the
collaborators' types. -/
def PodTemplateSpec.zero : PodTemplateSpec Meta Pod := ⟨default, default⟩

/-- The composite literal `DeploymentSpec{}`. -/
def DeploymentSpec.zero : DeploymentSpec Meta Pod :=
  { Replicas := none, Selector := none, Template := PodTemplateSpec.zero,
    Strategy := DeploymentStrategy.zero, MinReadySeconds := 0,
    RevisionHistoryLimit := none, Paused := false, RollbackTo := none,
    ProgressDeadlineSeconds := none }

end Objects

/-! ## Collaborators

The metadata mapper and the pod-spec mapper belong to other files of the provider; the
deployment code only threads their results through, so they are parameters here. -/

/-- The four mapper functions that `structure_deployment.go` calls on the metadata and
pod-spec blocks. `none` is a panic; `expandPodSpec` and `flattenPodSpec` also return a Go
`error`, carried as an optional message. -/
structure Mappers (Meta Pod : Type) where
  expandMetadata : List Value → Option Meta
  expandPodSpec : List Value → Option (Pod × Option String)
  flattenMetadata : Meta → Option Value
  flattenPodSpec : Pod → Option (Value × Option String)

/-- Modelled from the spec: `expandStringMap` is defined outside the files at hand. The
data model makes `matchLabels` an exact key/value mapping of strings, so each entry is
carried over as it is; an entry that is not a string is a shape error and fails fast. -/
def expandStringMap : Fields → Option (List (String × String))
  | [] => some []
  | (k, v) :: rest =>
    v.asString.bind fun s => (expandStringMap rest).map fun tl => (k, s) :: tl

/-- The elements of a string set, in the order the set lists them; a non-string element
is a shape error. -/
def stringsOf : List Value → Option (List String)
  | [] => some []
  | v :: rest => v.asString.bind fun s => (stringsOf rest).map fun tl => s :: tl

/-- Modelled from the spec: one requirement of `expandLabelSelectorRequirement`, the
record `{key, operator, values}` of the data model, built without validating the
operator against the values. -/
def expandRequirement : Value → Option LabelSelectorRequirement
  | .map m =>
    match m.lookup "key", m.lookup "operator", m.lookup "values" with
    | some (.str k), some (.str o), some (.set vs) =>
      (stringsOf vs).map fun l => ⟨k, o, l⟩
    | _, _, _ => none
  | _ => none

/-- Modelled from the spec: `expandLabelSelectorRequirement` is defined outside the files
at hand. `matchExpressions` is an ordered list, so the requirements are built one per
element, in input order. -/
def expandLabelSelectorRequirement : List Value → Option (List LabelSelectorRequirement)
  | [] => some []
  | v :: rest =>
    (expandRequirement v).bind fun r =>
      (expandLabelSelectorRequirement rest).map fun tl => r :: tl

/-! ## Expanders -/

/-- `expandRollbackToReferance`: the result is a pointer and never nil. -/
def expandRollbackToReferance (inp : List Value) : Option (Option RollbackConfig) :=
  match inp with
  | [] => some (some RollbackConfig.zero)
  | .nil :: _ => some (some RollbackConfig.zero)
  | .map m :: _ =>
    let rollbackConfig := RollbackConfig.zero
    (match m.lookup "revision" with
      | some v => v.asInt.map fun n => { rollbackConfig with Revision := n }
      | none => some rollbackConfig).map some
  | _ :: _ => none

/-- `expandSelectorReferance`: the result is a pointer and never nil. -/
def expandSelectorReferance (l : List Value) : Option (Option LabelSelector) :=
  match l with
  | [] => some (some LabelSelector.zero)
  | .nil :: _ => some (some LabelSelector.zero)
  | .map m :: _ =>
    let obj := LabelSelector.zero
    (match getMap m "match_labels" with
      | some v =>
        if v.length > 0 then (expandStringMap v).map fun ml => { obj with MatchLabels := ml }
        else some obj
      | none => some obj).bind fun obj =>
    (match getList m "match_expressions" with
      | some v =>
        if v.length > 0 then
          (expandLabelSelectorRequirement v).map fun me => { obj with MatchExpressions := me }
        else some obj
      | none => some obj).map some
  | _ :: _ => none

/-- One of the two int-or-string fields of `expandRollingUpdateReferance`: the block
`if v, ok := m[k].(string); ok && len(v) > 0 { i, err := strconv.Atoi(v); ... }`, giving
the pointer that is stored (nil when the block is skipped). -/
def expandIntOrStringField (m : Fields) (k : String) : Option IntOrString :=
  match getString m k with
  | some v =>
    if v.length > 0 then
      match atoi v with
      | none => some { Typ := IntStrType.String, IntVal := 0, StrVal := v }
      | some i => some { Typ := IntStrType.Int, IntVal := wrap32 i, StrVal := "" }
    else none
  | none => none

/-- `expandRollingUpdateReferance`: the result is a pointer and never nil. -/
def expandRollingUpdateReferance (inp : List Value) :
    Option (Option RollingUpdateDeployment) :=
  match inp with
  | [] => some (some RollingUpdateDeployment.zero)
  | .nil :: _ => some (some RollingUpdateDeployment.zero)
  | .map m :: _ =>
    some (some { MaxUnavailable := expandIntOrStringField m "max_unavailable",
                 MaxSurge := expandIntOrStringField m "max_surge" })
  | _ :: _ => none

/-- `expandStrategyReferance`. -/
def expandStrategyReferance (inp : List Value) : Option DeploymentStrategy :=
  match inp with
  | [] => some DeploymentStrategy.zero
  | .nil :: _ => some DeploymentStrategy.zero
  | .map m :: _ =>
    let strategy := DeploymentStrategy.zero
    let strategy :=
      match getString m "type" with
      | some v => { strategy with Typ := v }
      | none => strategy
    match m.lookup "rolling_update" with
    | some v =>
      v.asList.bind fun l =>
        (expandRollingUpdateReferance l).map fun ru => { strategy with RollingUpdate := ru }
    | none => some strategy
  | _ :: _ => none

/-- `expandDeploymentStatusCondition`; the `error` result is always nil and is left
out. -/
def expandDeploymentStatusCondition : List Value → Option (List DeploymentCondition)
  | [] => some []
  | c :: rest =>
    match c with
    | .map m =>
      let cnd := DeploymentCondition.zero
      (match m.lookup "type" with
        | some v => v.asString.map fun s => { cnd with Typ := s }
        | none => some cnd).bind fun cnd =>
      (match m.lookup "status" with
        | some v => v.asString.map fun s => { cnd with Status := s }
        | none => some cnd).bind fun cnd =>
      (match m.lookup "reason" with
        | some v => v.asString.map fun s => { cnd with Reason := s }
        | none => some cnd).bind fun cnd =>
      (match m.lookup "message" with
        | some v => v.asString.map fun s => { cnd with Message := s }
        | none => some cnd).bind fun cnd =>
      (expandDeploymentStatusCondition rest).map fun tl => cnd :: tl
    | _ => none

/-- `expandDeploymentStatus`. -/
def expandDeploymentStatus (inp : List Value) : Option DeploymentStatus :=
  match inp with
  | [] => some DeploymentStatus.zero
  | .nil :: _ => some DeploymentStatus.zero
  | .map m :: _ =>
    let status := DeploymentStatus.zero
    (match m.lookup "available_replicas" with
      | some v => v.asInt.map fun n => { status with AvailableReplicas := wrap32 n }
      | none => some status).bind fun status =>
    (match m.lookup "observed_generation" with
      | some v => v.asInt.map fun n => { status with ObservedGeneration := n }
      | none => some status).bind fun status =>
    (match m.lookup "replicas" with
      | some v => v.asInt.map fun n => { status with Replicas := wrap32 n }
      | none => some status).bind fun status =>
    (match m.lookup "updated_replicas" with
      | some v => v.asInt.map fun n => { status with UpdatedReplicas := wrap32 n }
      | none => some status).bind fun status =>
    (match m.lookup "ready_replicas" with
      | some v => v.asInt.map fun n => { status with ReadyReplicas := wrap32 n }
      | none => some status).bind fun status =>
    (match getList m "conditions" with
      | some v =>
        if v.length > 0 then
          (expandDeploymentStatusCondition v).map fun cs => { status with Conditions := cs }
        else some status
      | none => some status)
  | _ :: _ => none

section Expand

variable {Meta Pod : Type} [Inhabited Meta] [Inhabited Pod]

/-- `expandTemplateReferance`: the template together with the `error` result; on an error
of the pod-spec mapper the template returned is `PodTemplateSpec{}`. -/
def expandTemplateReferance (K : Mappers Meta Pod) (inp : List Value) :
    Option (PodTemplateSpec Meta Pod × Option String) :=
  match inp with
  | [] => some (PodTemplateSpec.zero, none)
  | .nil :: _ => some (PodTemplateSpec.zero, none)
  | .map m :: _ =>
    let pt : PodTemplateSpec Meta Pod := PodTemplateSpec.zero
    (match m.lookup "metadata" with
      | some v => v.asList.bind fun l =>
          (K.expandMetadata l).map fun om => { pt with ObjectMeta := om }
      | none => some pt).bind fun pt =>
    match m.lookup "spec" with
    | some v => v.asList.bind fun l =>
        (K.expandPodSpec l).map fun (r : Pod × Option String) =>
          match r.2 with
          | some err => (PodTemplateSpec.zero, some err)
          | none => ({ pt with Spec := r.1 }, none)
    | none => some (pt, none)
  | _ :: _ => none

/-- `expandDeploymentSpec`. -/
def expandDeploymentSpec (inp : List Value) : Option (DeploymentSpec Meta Pod) :=
  match inp with
  | [] => some DeploymentSpec.zero
  | .nil :: _ => some DeploymentSpec.zero
  | .map m :: _ =>
    let spec : DeploymentSpec Meta Pod := DeploymentSpec.zero
    (match m.lookup "min_ready_seconds" with
      | some v => v.asInt.map fun n => { spec with MinReadySeconds := wrap32 n }
      | none => some spec).bind fun spec =>
    (match m.lookup "paused" with
      | some v => v.asBool.map fun b => { spec with Paused := b }
      | none => some spec).bind fun spec =>
    let spec :=
      match getInt m "progress_deadline_seconds" with
      | some v => { spec with ProgressDeadlineSeconds := some (wrap32 v) }
      | none => spec
    let spec :=
      match getInt m "replicas" with
      | some v => if v > 0 then { spec with Replicas := some (wrap32 v) } else spec
      | none => spec
    let spec :=
      match getInt m "revision_history_limit" with
      | some v => if v > 0 then { spec with RevisionHistoryLimit := some (wrap32 v) } else spec
      | none => spec
    (match m.lookup "selector" with
      | some v => v.asList.bind fun l =>
          (expandSelectorReferance l).map fun sel => { spec with Selector := sel }
      | none => some spec).bind fun spec =>
    (match m.lookup "rollback_to" with
      | some v => v.asList.bind fun l =>
          (expandRollbackToReferance l).map fun rb => { spec with RollbackTo := rb }
      | none => some spec).bind fun spec =>
    (match m.lookup "strategy" with
      | some v => v.asList.bind fun l =>
          (expandStrategyReferance l).map fun st => { spec with Strategy := st }
      | none => some spec)
  | _ :: _ => none

end Expand

/-! ## Flatteners -/

/-- Modelled from the spec: `flattenIntOrString` is defined outside the files at hand.
The data model has integers rendered as decimal digits without a percent sign and the
string form rendered as the string it holds. -/
def flattenIntOrString (x : IntOrString) : Value :=
  match x.Typ with
  | IntStrType.Int => .str (toString x.IntVal)
  | IntStrType.String => .str x.StrVal

/-- Modelled from the spec: `flattenLabelSelectorRequirementList` is defined outside the
files at hand. Each requirement becomes its record `{key, operator, values}`, in order. -/
def flattenLabelSelectorRequirementList (l : List LabelSelectorRequirement) : Value :=
  .list (l.map fun r =>
    .map [("key", .str r.Key), ("operator", .str r.Operator),
          ("values", .set (r.Values.map Value.str))])

/-- `flattenLabelSelectorReferance`: reads through the pointer without a nil check. -/
def flattenLabelSelectorReferance (selector : Option LabelSelector) : Option (List Value) :=
  selector.map fun sel =>
    let m : Fields := []
    let m := setKey m "match_labels" (.strMap sel.MatchLabels)
    let m := setKey m "match_expressions"
      (flattenLabelSelectorRequirementList sel.MatchExpressions)
    [.map m]

/-- `flattenRollingUpdateDeployment`: dereferences the argument and both of its pointer
fields without a nil check. -/
def flattenRollingUpdateDeployment (inp : Option RollingUpdateDeployment) :
    Option (List Value) :=
  inp.bind fun ru =>
    ru.MaxUnavailable.bind fun mu =>
      ru.MaxSurge.map fun ms =>
        let m : Fields := []
        let m := setKey m "max_unavailable" (flattenIntOrString mu)
        let m := setKey m "max_surge" (flattenIntOrString ms)
        [.map m]

/-- `flattenStrategyReferance`. -/
def flattenStrategyReferance (inp : DeploymentStrategy) : Option (List Value) :=
  (flattenRollingUpdateDeployment inp.RollingUpdate).map fun ru =>
    let m : Fields := []
    let m := setKey m "type" (.str inp.Typ)
    let m := setKey m "rolling_update" (.list ru)
    [.map m]

/-- `flattenRollbackToReferance`: reads through the pointer without a nil check. -/
def flattenRollbackToReferance (inp : Option RollbackConfig) : Option (List Value) :=
  inp.map fun rb =>
    let m : Fields := []
    let m := setKey m "revision" (.int64 rb.Revision)
    [.map m]

/-- `flattenDeploymentConditionReferance`, a `map[string]string`. -/
def flattenDeploymentConditionReferance (inp : DeploymentCondition) :
    List (String × String) :=
  [("type", inp.Typ), ("status", inp.Status), ("reason", inp.Reason),
   ("message", inp.Message)]

/-- `flattenDeploymentStatus`. -/
def flattenDeploymentStatus (inp : DeploymentStatus) : List Value :=
  let m : Fields := []
  let m := setKey m "observed_generation" (.int64 inp.ObservedGeneration)
  let m := setKey m "replicas" (.int32 inp.Replicas)
  let m := setKey m "update_replicas" (.int32 inp.UpdatedReplicas)
  let m := setKey m "ready_replicas" (.int32 inp.ReadyReplicas)
  let m := setKey m "available_replicas" (.int32 inp.AvailableReplicas)
  let m := setKey m "unavailable_replicas" (.int32 inp.UnavailableReplicas)
  let conditions := inp.Conditions.foldl
    (fun acc val => acc ++ [flattenDeploymentConditionReferance val]) []
  let m := setKey m "conditions" (.strMapList conditions)
  [.map m]

section Flatten

variable {Meta Pod : Type}

/-- `flattenTemplateReferance`; the `error` of `flattenPodSpec` is dropped. -/
def flattenTemplateReferance (K : Mappers Meta Pod) (template : PodTemplateSpec Meta Pod) :
    Option (List Value) :=
  (K.flattenMetadata template.ObjectMeta).bind fun md =>
    (K.flattenPodSpec template.Spec).map fun ps =>
      let m : Fields := []
      let m := setKey m "metadata" md
      let m := setKey m "spec" ps.1
      [.map m]

/-- `flattenDeploymentSpec`. -/
def flattenDeploymentSpec (K : Mappers Meta Pod) (spec : DeploymentSpec Meta Pod) :
    Option (List Value) :=
  let m : Fields := []
  let m :=
    match spec.Replicas with
    | some r => setKey m "replicas" (.int32 r)
    | none => m
  (flattenLabelSelectorReferance spec.Selector).bind fun sel =>
  let m := setKey m "selector" (.list sel)
  (flattenTemplateReferance K spec.Template).bind fun tpl =>
  let m := setKey m "template" (.list tpl)
  (flattenStrategyReferance spec.Strategy).bind fun st =>
  let m := setKey m "strategy" (.list st)
  let m := setKey m "min_ready_seconds" (.int32 spec.MinReadySeconds)
  let m :=
    match spec.RevisionHistoryLimit with
    | some r => setKey m "revision_history_limit" (.int32 r)
    | none => m
  let m := setKey m "paused" (.bool spec.Paused)
  (flattenRollbackToReferance spec.RollbackTo).map fun rb =>
  let m := setKey m "rollback_to" (.list rb)
  let m :=
    match spec.ProgressDeadlineSeconds with
    | some r => setKey m "progress_deadline_seconds" (.int32 r)
    | none => m
  [.map m]

end Flatten

/-! ## Patchers -/

/-- The part of `*schema.ResourceData` that the patcher uses: the per-key change oracle
and the new value of a key. -/
structure ResourceData where
  HasChange : String → Bool
  Get : String → Value

/-- What a patcher stores in the `Value` field of an operation. -/
inductive PatchValue (Meta Pod : Type) where
  | int (n : Int)
  | bool (b : Bool)
  | rollbackTo (r : Option RollbackConfig)
  | selector (s : Option LabelSelector)
  | strategy (s : DeploymentStrategy)
  | template (t : PodTemplateSpec Meta Pod)
deriving DecidableEq, Repr

/-- Modelled from the spec: the operation kinds of a patch document; the type is declared
outside the files at hand. -/
inductive OpKind where
  | add
  | remove
  | replace
deriving DecidableEq, Repr

/-- Modelled from the spec: a patch operation `{operation kind, structural path, value}`;
the type is declared outside the files at hand. -/
structure PatchOperation (Meta Pod : Type) where
  Op : OpKind
  Path : String
  Value : PatchValue Meta Pod
deriving DecidableEq, Repr

/-- The literal `&ReplaceOperation{Path: path, Value: value}`. -/
def ReplaceOperation {Meta Pod : Type} (path : String) (value : PatchValue Meta Pod) :
    PatchOperation Meta Pod :=
  ⟨OpKind.replace, path, value⟩

section Patch

variable {Meta Pod : Type} [Inhabited Meta] [Inhabited Pod]

/-- `patchDeploymentSpec`; `pfx` is the parameter `prefix` of the source. -/
def patchDeploymentSpec (K : Mappers Meta Pod) (pfx pathPrefix : String)
    (d : ResourceData) : Option (List (PatchOperation Meta Pod)) :=
  let ops : List (PatchOperation Meta Pod) := []
  (if d.HasChange (pfx ++ "min_ready_seconds") then
    (d.Get (pfx ++ "min_ready_seconds")).asInt.map fun v =>
      ops ++ [ReplaceOperation (pathPrefix ++ "/minReadySeconds") (.int v)]
  else some ops).bind fun ops =>
  (if d.HasChange (pfx ++ "paused") then
    (d.Get (pfx ++ "paused")).asBool.map fun v =>
      ops ++ [ReplaceOperation (pathPrefix ++ "/paused") (.bool v)]
  else some ops).bind fun ops =>
  (if d.HasChange (pfx ++ "progress_deadline_seconds") then
    (d.Get (pfx ++ "progress_deadline_seconds")).asInt.map fun v =>
      ops ++ [ReplaceOperation (pathPrefix ++ "/progressDeadlineSeconds") (.int v)]
  else some ops).bind fun ops =>
  (if d.HasChange (pfx ++ "replicas") then
    (d.Get (pfx ++ "replicas")).asInt.map fun v =>
      ops ++ [ReplaceOperation (pathPrefix ++ "/replicas") (.int v)]
  else some ops).bind fun ops =>
  (if d.HasChange (pfx ++ "revision_history_limit") then
    (d.Get (pfx ++ "revision_history_limit")).asInt.map fun v =>
      ops ++ [ReplaceOperation (pathPrefix ++ "/revisionHistoryLimit") (.int v)]
  else some ops).bind fun ops =>
  (if d.HasChange (pfx ++ "rollback_to") then
    ((d.Get (pfx ++ "rollback_to")).asList.bind expandRollbackToReferance).map fun v =>
      ops ++ [ReplaceOperation (pathPrefix ++ "/rollbackTo") (.rollbackTo v)]
  else some ops).bind fun ops =>
  (if d.HasChange (pfx ++ "selector") then
    ((d.Get (pfx ++ "selector")).asList.bind expandSelectorReferance).map fun v =>
      ops ++ [ReplaceOperation (pathPrefix ++ "/selector") (.selector v)]
  else some ops).bind fun ops =>
  (if d.HasChange (pfx ++ "strategy") then
    ((d.Get (pfx ++ "strategy")).asList.bind expandStrategyReferance).map fun v =>
      ops ++ [ReplaceOperation (pathPrefix ++ "/strategy") (.strategy v)]
  else some ops).bind fun ops =>
  (if d.HasChange (pfx ++ "template") then
    ((d.Get (pfx ++ "template")).asList.bind (expandTemplateReferance K)).map fun r =>
      ops ++ [ReplaceOperation (pathPrefix ++ "/template") (.template r.1)]
  else some ops)

end Patch

/-! ## Specification-side definitions

What the properties below are stated with: the canonical int-or-string values, the field
table of the patcher, and sample inputs. -/

/-- An int-or-string value as one of the expanders builds it: the integer form with a
32-bit value and no string, or the string form with a non-empty string that
`strconv.Atoi` rejects and no integer. -/
def IntOrString.canonical (x : IntOrString) : Prop :=
  (x.Typ = IntStrType.Int ∧ inInt32 x.IntVal ∧ x.StrVal = "") ∨
  (x.Typ = IntStrType.String ∧ x.IntVal = 0 ∧ x.StrVal ≠ "" ∧ atoi x.StrVal = none)

/-- A configured string that is rendered back unchanged: a non-empty string that
`strconv.Atoi` rejects (a percentage such as `25%`), or the decimal rendering of a 32-bit
integer (such as `5`, but not `+5`, `05` or `4294967296`). -/
def rendersBack (v : String) : Prop :=
  (v ≠ "" ∧ atoi v = none) ∨ (∃ n : Int, inInt32 n ∧ v = toString n)

/-- The nine top-level fields in the order `patchDeploymentSpec` visits them: the
configuration key and the API field name. -/
def fieldTable : List (String × String) :=
  [("min_ready_seconds", "minReadySeconds"), ("paused", "paused"),
   ("progress_deadline_seconds", "progressDeadlineSeconds"), ("replicas", "replicas"),
   ("revision_history_limit", "revisionHistoryLimit"), ("rollback_to", "rollbackTo"),
   ("selector", "selector"), ("strategy", "strategy"), ("template", "template")]

/-- The fields of `fieldTable` that the oracle reports as changed. -/
def changedFields (pfx : String) (d : ResourceData) : List (String × String) :=
  fieldTable.filter fun f => d.HasChange (pfx ++ f.1)

section SpecSide

variable {Meta Pod : Type} [Inhabited Meta] [Inhabited Pod]

/-- The value a patch operation is to carry for a configuration key with new value `v`:
the scalar fields verbatim, the composite fields through their expand function. `none`
when the value has the wrong shape. -/
def specValue (K : Mappers Meta Pod) (key : String) (v : Value) :
    Option (PatchValue Meta Pod) :=
  if key = "paused" then v.asBool.map PatchValue.bool
  else if key = "rollback_to" then
    (v.asList.bind expandRollbackToReferance).map PatchValue.rollbackTo
  else if key = "selector" then
    (v.asList.bind expandSelectorReferance).map PatchValue.selector
  else if key = "strategy" then
    (v.asList.bind expandStrategyReferance).map PatchValue.strategy
  else if key = "template" then
    (v.asList.bind (expandTemplateReferance K)).map fun r => PatchValue.template r.1
  else v.asInt.map PatchValue.int

/-- Every changed field has a new value of the shape the patcher asserts. -/
def wellShaped (K : Mappers Meta Pod) (pfx : String) (d : ResourceData) : Prop :=
  ∀ f ∈ fieldTable, d.HasChange (pfx ++ f.1) = true →
    (specValue K f.1 (d.Get (pfx ++ f.1))).isSome = true

/-- What one field `f` of the table contributes to a patch: the operations `e` carry the
path of `f` exactly when `f` changed, and each of them is a replace operation for `f`
with the value `specValue` prescribes. -/
def emitsField (K : Mappers Meta Pod) (pfx pathPrefix : String) (d : ResourceData)
    (f : String × String) (e : List (PatchOperation Meta Pod)) : Prop :=
  e.map (fun op => op.Path) =
      (if d.HasChange (pfx ++ f.1) = true then [pathPrefix ++ "/" ++ f.2] else []) ∧
    ∀ op ∈ e, d.HasChange (pfx ++ f.1) = true ∧ op.Op = OpKind.replace ∧
      op.Path = pathPrefix ++ "/" ++ f.2 ∧
      specValue K f.1 (d.Get (pfx ++ f.1)) = some op.Value

end SpecSide

/-- Collaborators over one-point metadata and pod-spec types. -/
def sampleMappers : Mappers Unit Unit :=
  { expandMetadata := fun _ => some (),
    expandPodSpec := fun _ => some ((), none),
    flattenMetadata := fun _ => some (.list []),
    flattenPodSpec := fun _ => some (.list [], none) }

/-- A spec with every pointer set, replicas explicitly zero and no revision history
limit. -/
def sampleSpec : DeploymentSpec Unit Unit :=
  { Replicas := some 0,
    Selector := some ⟨[("app", "web")], [⟨"tier", "In", ["a"]⟩]⟩,
    Template := PodTemplateSpec.zero,
    Strategy := ⟨"RollingUpdate",
      some ⟨some ⟨IntStrType.Int, 1, ""⟩, some ⟨IntStrType.String, 0, "25%"⟩⟩⟩,
    MinReadySeconds := 10, RevisionHistoryLimit := none, Paused := true,
    RollbackTo := some ⟨3⟩, ProgressDeadlineSeconds := some 600 }

/-- A resource whose replicas, strategy and selector changed. -/
def sampleChange : ResourceData :=
  { HasChange := fun k =>
      k == "spec.0.replicas" || k == "spec.0.strategy" || k == "spec.0.selector",
    Get := fun k =>
      if k = "spec.0.replicas" then .int 0
      else if k = "spec.0.strategy" then .list [.map [("type", .str "Recreate")]]
      else if k = "spec.0.selector" then .list []
      else .nil }

/-- A resource of which only `paused` changed. -/
def samplePaused : ResourceData :=
  { HasChange := fun k => k == "spec.0.paused",
    Get := fun k => if k = "spec.0.paused" then .bool true else .nil }

/-- The tree `v` is a record `{key, operator, values}` that holds the fields of the
requirement `r`, the values as a set of strings. -/
def isRequirementRecord (v : Value) (r : LabelSelectorRequirement) : Prop :=
  ∃ f : Fields, v = Value.map f ∧ f.lookup "key" = some (Value.str r.Key) ∧
    f.lookup "operator" = some (Value.str r.Operator) ∧
    f.lookup "values" = some (Value.set (r.Values.map Value.str))

/-- The input of `TestExpandSelectorReferance` (`generateDumyLabelSelectorMap`). -/
def generateDumyLabelSelectorMap : Fields :=
  [("match_labels", Value.map [("a", Value.str "v"), ("b", Value.str "v2")]),
   ("match_expressions", Value.list
     [Value.map [("key", Value.str "key"), ("operator", Value.str "In"),
        ("values", Value.set [Value.str "a", Value.str "b"])],
      Value.map [("key", Value.str "key2"), ("operator", Value.str "NotIn"),
        ("values", Value.set [Value.str "a2", Value.str "b2"])]])]

/-- The expected value of `TestExpandSelectorReferance` (`generateDumyLabelSelector`). -/
def generateDumyLabelSelector : LabelSelector :=
  { MatchLabels := [("a", "v"), ("b", "v2")],
    MatchExpressions := [⟨"key", "In", ["a", "b"]⟩, ⟨"key2", "NotIn", ["a2", "b2"]⟩] }

/-- The input of `TestExpandDeploymentSpec`. -/
def testSpecInput : Fields :=
  [("min_ready_seconds", Value.int 10), ("paused", Value.bool false),
   ("progress_deadline_seconds", Value.int 5), ("replicas", Value.int 7),
   ("revision_history_limit", Value.int 6), ("selector", Value.list []),
   ("template", Value.list []), ("rollback_to", Value.list []),
   ("strategy", Value.list [])]

section ScalarPart

variable {Meta Pod : Type}

/-- The scalar fields and the template of a spec, the part that the selector, rollback and
strategy steps of `expandDeploymentSpec` leave alone. -/
def scalarPart (s : DeploymentSpec Meta Pod) :
    PodTemplateSpec Meta Pod × Int × Bool × Option Int × Option Int × Option Int :=
  (s.Template, s.MinReadySeconds, s.Paused, s.ProgressDeadlineSeconds, s.Replicas,
    s.RevisionHistoryLimit)

end ScalarPart

/-- Collaborators over booleans: an object is `true` when it was expanded from a non-empty
block, and `false`, the zero value, otherwise. -/
def flagMappers : Mappers Bool Bool :=
  { expandMetadata := fun l => some (!l.isEmpty),
    expandPodSpec := fun l => some (!l.isEmpty, none),
    flattenMetadata := fun b => some (Value.list (if b then [Value.map []] else [])),
    flattenPodSpec := fun b => some (Value.list (if b then [Value.map []] else []), none) }

/-- The collaborators `flagMappers` with a pod-spec mapper that returns an error. -/
def failingMappers : Mappers Bool Bool :=
  { flagMappers with expandPodSpec := fun _ => some (true, some "invalid pod spec") }

/-- A template block with a metadata block and a pod-spec block in it. -/
def sampleTemplate : List Value :=
  [Value.map [("metadata", Value.list [Value.map []]), ("spec", Value.list [Value.map []])]]

/-- A resource under the prefix `spec.0.` of which only the key `key` changed, to the new
value `v`. -/
def changeOf (key : String) (v : Value) : ResourceData :=
  { HasChange := fun k => k == "spec.0." ++ key,
    Get := fun k => if k = "spec.0." ++ key then v else Value.nil }

/-- A resource whose selector and template changed. -/
def sampleSelectorTemplate : ResourceData :=
  { HasChange := fun k => k == "spec.0.selector" || k == "spec.0.template",
    Get := fun k =>
      if k = "spec.0.selector" then Value.list []
      else if k = "spec.0.template" then Value.list sampleTemplate
      else Value.nil }

/-- A resource whose new configuration is the input of `TestExpandDeploymentSpec` and of
which only `replicas` changed. -/
def testSpecChange : ResourceData :=
  { HasChange := fun k => k == "spec.0.replicas",
    Get := fun k =>
      if k = "spec.0.min_ready_seconds" then Value.int 10
      else if k = "spec.0.paused" then Value.bool false
      else if k = "spec.0.progress_deadline_seconds" then Value.int 5
      else if k = "spec.0.replicas" then Value.int 7
      else if k = "spec.0.revision_history_limit" then Value.int 6
      else Value.list [] }

/-- The keys that the schema of the `spec` block declares
(`resource_kubernetes_deployment.go`, lines 35 to 116), character for character. -/
def specSchemaKeys : List String :=
  ["min_ready_seconds", "paused", "progress_deadline_seconds ", "replicas",
   "revision_history_limit", "rollback_to", "selector", "strategy", "template"]

/-- The keys that the schema of the `status` block declares
(`resource_kubernetes_deployment.go`, lines 145 to 176). -/
def statusSchemaKeys : List String :=
  ["available_replicas", "conditions", "observed_generation", "ready_replicas",
   "replicas", "unavailable_replicas", "updated_replicas"]

/-- The keys of a map. -/
def keysOf (m : Fields) : List String := m.map Prod.fst

/-- A spec over the collaborators `flagMappers` with every pointer set, a non-zero
template, replicas explicitly zero and no revision history limit. -/
def sampleSpecFlags : DeploymentSpec Bool Bool :=
  { Replicas := some 0,
    Selector := some ⟨[("app", "web")], []⟩,
    Template := ⟨true, true⟩,
    Strategy := ⟨"RollingUpdate",
      some ⟨some ⟨IntStrType.Int, 1, ""⟩, some ⟨IntStrType.String, 0, "25%"⟩⟩⟩,
    MinReadySeconds := 10, RevisionHistoryLimit := none, Paused := true,
    RollbackTo := some ⟨3⟩, ProgressDeadlineSeconds := some 600 }

/-! ## Lemmas on maps and strings -/

theorem lookup_append_singleton_ne (m : Fields) (k k2 : String) (v : Value) (h : k2 ≠ k) :
    (m ++ [(k, v)]).lookup k2 = m.lookup k2 := by
  induction m with
  | nil =>
    have hb : (k2 == k) = false := by simpa using h
    simp [List.lookup, hb]
  | cons e rest ih =>
    obtain ⟨a, b⟩ := e
    by_cases hk : k2 = a
    · subst hk; simp [List.lookup]
    · have hb : (k2 == a) = false := by simpa using hk
      simp [List.lookup, hb, ih]

theorem lookup_setKey_ne (m : Fields) (k k2 : String) (v : Value) (h : k2 ≠ k) :
    (setKey m k v).lookup k2 = m.lookup k2 := by
  unfold setKey
  rw [lookup_append_singleton_ne _ _ _ _ h]
  induction m with
  | nil => rfl
  | cons e rest ih =>
    obtain ⟨a, b⟩ := e
    by_cases ha : a = k
    · subst ha
      have hb : (k2 == a) = false := by simpa using h
      simp [List.filter, List.lookup, hb, ih]
    · have hc : (a != k) = true := by simpa using ha
      by_cases hk : k2 = a
      · subst hk; simp [List.filter, hc, List.lookup]
      · have hb : (k2 == a) = false := by simpa using hk
        simp [List.filter, hc, List.lookup, hb, ih]

theorem lookup_setKey_self (m : Fields) (k : String) (v : Value) :
    (setKey m k v).lookup k = some v := by
  unfold setKey
  induction m with
  | nil => simp [List.lookup]
  | cons e rest ih =>
    obtain ⟨a, b⟩ := e
    by_cases ha : a = k
    · subst ha; simpa [List.filter] using ih
    · have hc : (a != k) = true := by simpa using ha
      have hb : (k == a) = false := by simpa using (Ne.symm ha)
      simpa [List.filter, hc, List.lookup, hb] using ih

/-! ## Optional integers -/

/-- C2: whenever `flattenDeploymentSpec` returns, it returns one map, and in that map each
of `replicas`, `revision_history_limit` and `progress_deadline_seconds` is present exactly
when the optional field of the spec is set, holding the pointed-to integer; a field set to
0 gives the key with value 0 and a nil field gives no key. -/
theorem flattenDeploymentSpec_optional_ints {Meta Pod : Type} (K : Mappers Meta Pod)
    (s : DeploymentSpec Meta Pod) (tree : List Value)
    (h : flattenDeploymentSpec K s = some tree) :
    ∃ m : Fields, tree = [Value.map m] ∧
      m.lookup "replicas" = s.Replicas.map Value.int32 ∧
      m.lookup "revision_history_limit" = s.RevisionHistoryLimit.map Value.int32 ∧
      m.lookup "progress_deadline_seconds" =
        s.ProgressDeadlineSeconds.map Value.int32 := by
  unfold flattenDeploymentSpec at h
  simp only [Option.bind_eq_some, Option.map_eq_some'] at h
  obtain ⟨sel, _, tpl, _, st, _, rb, _, rfl⟩ := h
  refine ⟨_, rfl, ?_, ?_, ?_⟩
  · cases s.Replicas <;> cases s.RevisionHistoryLimit <;>
      cases s.ProgressDeadlineSeconds <;>
      simp [lookup_setKey_ne, lookup_setKey_self]
  · cases s.Replicas <;> cases s.RevisionHistoryLimit <;>
      cases s.ProgressDeadlineSeconds <;>
      simp [lookup_setKey_ne, lookup_setKey_self]
  · cases s.Replicas <;> cases s.RevisionHistoryLimit <;>
      cases s.ProgressDeadlineSeconds <;>
      simp [lookup_setKey_ne, lookup_setKey_self]

/-- C2 at `sampleSpec`: flatten returns there, `replicas` (set to 0) is present with value
0 and `revision_history_limit` (nil) is absent. -/
theorem flattenDeploymentSpec_optional_ints_witness :
    (flattenDeploymentSpec sampleMappers sampleSpec).isSome = true ∧
    ∃ m : Fields, flattenDeploymentSpec sampleMappers sampleSpec = some [Value.map m] ∧
      m.lookup "replicas" = some (Value.int32 0) ∧
      m.lookup "revision_history_limit" = none ∧
      m.lookup "progress_deadline_seconds" = some (Value.int32 600) := by
  refine ⟨by decide, ?_⟩
  obtain ⟨t, ht⟩ := Option.isSome_iff_exists.mp
    (show (flattenDeploymentSpec sampleMappers sampleSpec).isSome = true by decide)
  obtain ⟨m, hm, h1, h2, h3⟩ :=
    flattenDeploymentSpec_optional_ints sampleMappers sampleSpec t ht
  exact ⟨m, by rw [ht, hm], h1, h2, h3⟩

/-- C3 (the code at the failing input): a tree with `replicas` present and 0, and one with
`revision_history_limit` present and 0, expand to the same spec as the tree without the
key, with the field nil; only `progress_deadline_seconds` keeps an explicit 0. -/
theorem expandDeploymentSpec_explicit_zero_dropped :
    (expandDeploymentSpec [Value.map [("replicas", Value.int 0)]] :
      Option (DeploymentSpec Unit Unit)) = expandDeploymentSpec [Value.map []] ∧
    (expandDeploymentSpec [Value.map [("revision_history_limit", Value.int 0)]] :
      Option (DeploymentSpec Unit Unit)) = expandDeploymentSpec [Value.map []] ∧
    (expandDeploymentSpec [Value.map []] : Option (DeploymentSpec Unit Unit)) =
      some DeploymentSpec.zero ∧
    (expandDeploymentSpec [Value.map [("progress_deadline_seconds", Value.int 0)]] :
      Option (DeploymentSpec Unit Unit)) =
      some { (DeploymentSpec.zero : DeploymentSpec Unit Unit) with
        ProgressDeadlineSeconds := some 0 } := by
  decide

/-! ## Empty input -/

/-- C9 (counterexample): on the empty list, and on a list that starts with nil, the three
pointer-returning expanders do not return nil, the zero value of their result type. -/
theorem expand_empty_pointer_not_nil :
    expandRollbackToReferance [] ≠ some none ∧
    expandSelectorReferance [] ≠ some none ∧
    expandRollingUpdateReferance [Value.nil] ≠ some none := by
  decide

/-- C9 (amended): on the empty list and on any list whose first element is nil, the
expanders that return a struct return its zero value (and `expandTemplateReferance` no
error), the expanders that return a pointer return a non-nil pointer to a zero-valued
struct, and `expandDeploymentStatusCondition` returns the empty list on the empty list;
none of them panics. -/
theorem expand_empty_input {Meta Pod : Type} [Inhabited Meta] [Inhabited Pod]
    (K : Mappers Meta Pod) (rest : List Value) :
    ((expandDeploymentSpec [] : Option (DeploymentSpec Meta Pod)) = some DeploymentSpec.zero ∧
      expandStrategyReferance [] = some DeploymentStrategy.zero ∧
      expandTemplateReferance K [] = some (PodTemplateSpec.zero, none) ∧
      expandDeploymentStatus [] = some DeploymentStatus.zero ∧
      expandRollbackToReferance [] = some (some RollbackConfig.zero) ∧
      expandSelectorReferance [] = some (some LabelSelector.zero) ∧
      expandRollingUpdateReferance [] = some (some RollingUpdateDeployment.zero) ∧
      expandDeploymentStatusCondition [] = some []) ∧
    ((expandDeploymentSpec (Value.nil :: rest) : Option (DeploymentSpec Meta Pod)) =
        some DeploymentSpec.zero ∧
      expandStrategyReferance (Value.nil :: rest) = some DeploymentStrategy.zero ∧
      expandTemplateReferance K (Value.nil :: rest) = some (PodTemplateSpec.zero, none) ∧
      expandDeploymentStatus (Value.nil :: rest) = some DeploymentStatus.zero ∧
      expandRollbackToReferance (Value.nil :: rest) = some (some RollbackConfig.zero) ∧
      expandSelectorReferance (Value.nil :: rest) = some (some LabelSelector.zero) ∧
      expandRollingUpdateReferance (Value.nil :: rest) =
        some (some RollingUpdateDeployment.zero)) := by
  refine ⟨⟨rfl, rfl, rfl, rfl, rfl, rfl, rfl, rfl⟩, ⟨rfl, rfl, rfl, rfl, rfl, rfl, rfl⟩⟩

/-! ## Totality of flatten -/

/-- C10 (the code at the failing inputs): `flattenDeploymentSpec` panics on every spec
whose `Selector` is nil, whose `RollbackTo` is nil, whose `Strategy.RollingUpdate` is nil,
or whose rolling update has a nil `MaxUnavailable` or `MaxSurge`, the zero-valued spec
among them; `flattenDeploymentStatus` always returns one element. -/
theorem flattenDeploymentSpec_nil_pointer_panics {Meta Pod : Type} [Inhabited Meta]
    [Inhabited Pod] (K : Mappers Meta Pod) (s : DeploymentSpec Meta Pod)
    (x : Option IntOrString) (st : DeploymentStatus) :
    flattenDeploymentSpec K (DeploymentSpec.zero : DeploymentSpec Meta Pod) = none ∧
    flattenDeploymentSpec K { s with Selector := none } = none ∧
    flattenDeploymentSpec K { s with RollbackTo := none } = none ∧
    flattenDeploymentSpec K { s with Strategy := ⟨s.Strategy.Typ, none⟩ } = none ∧
    flattenDeploymentSpec K { s with Strategy := ⟨s.Strategy.Typ, some ⟨none, x⟩⟩ } = none ∧
    flattenDeploymentSpec K { s with Strategy := ⟨s.Strategy.Typ, some ⟨x, none⟩⟩ } = none ∧
    (flattenDeploymentStatus st).length = 1 := by
  refine ⟨?_, ?_, ?_, ?_, ?_, ?_, rfl⟩
  · simp [flattenDeploymentSpec, DeploymentSpec.zero, flattenLabelSelectorReferance]
  · simp [flattenDeploymentSpec, flattenLabelSelectorReferance]
  · simp [flattenDeploymentSpec, flattenRollbackToReferance]
  · simp [flattenDeploymentSpec, flattenStrategyReferance, flattenRollingUpdateDeployment]
  · simp [flattenDeploymentSpec, flattenStrategyReferance, flattenRollingUpdateDeployment]
  · simp [flattenDeploymentSpec, flattenStrategyReferance, flattenRollingUpdateDeployment]

/-! ## The patcher -/

section PatchLemmas

variable {Meta Pod : Type} [Inhabited Meta] [Inhabited Pod]

theorem patch_step_field {α : Type} (K : Mappers Meta Pod) (pfx pathPrefix : String)
    (d : ResourceData) (f : String × String) (p : String) (y : Option α)
    (g : α → PatchValue Meta Pod) (ops ops2 : List (PatchOperation Meta Pod))
    (hp : p = pathPrefix ++ "/" ++ f.2)
    (hv : y.map g = specValue K f.1 (d.Get (pfx ++ f.1)))
    (h : (if d.HasChange (pfx ++ f.1) = true then
        y.map (fun v => ops ++ [ReplaceOperation p (g v)]) else some ops) = some ops2) :
    ∃ e : List (PatchOperation Meta Pod), ops2 = ops ++ e ∧
      emitsField K pfx pathPrefix d f e := by
  unfold emitsField
  cases hc : d.HasChange (pfx ++ f.1) with
  | false =>
    simp only [hc, Bool.false_eq_true, if_false, Option.some.injEq] at h
    exact ⟨[], by simp [h], by simp, by simp⟩
  | true =>
    simp only [hc, if_true, Option.map_eq_some'] at h
    obtain ⟨v, hv2, rfl⟩ := h
    refine ⟨[ReplaceOperation p (g v)], rfl, by simp [ReplaceOperation, hp], ?_⟩
    intro op hop
    simp only [List.mem_singleton] at hop
    subst hop
    refine ⟨rfl, rfl, hp, ?_⟩
    rw [← hv, hv2]; rfl

theorem patchDeploymentSpec_decompose (K : Mappers Meta Pod) (pfx pathPrefix : String)
    (d : ResourceData) (ops : List (PatchOperation Meta Pod))
    (h : patchDeploymentSpec K pfx pathPrefix d = some ops) :
    ∃ es : List (List (PatchOperation Meta Pod)), ops = es.flatten ∧
      List.Forall₂ (emitsField K pfx pathPrefix d) fieldTable es := by
  unfold patchDeploymentSpec at h
  simp only [Option.bind_eq_some] at h
  obtain ⟨o1, h1, o2, h2, o3, h3, o4, h4, o5, h5, o6, h6, o7, h7, o8, h8, h9⟩ := h
  obtain ⟨e1, he1, p1⟩ := patch_step_field K pfx pathPrefix d
    ("min_ready_seconds", "minReadySeconds") _ _ _ _ _
    (by rw [String.append_assoc]; rfl) (by simp [specValue]) h1
  rw [List.nil_append] at he1
  subst he1
  obtain ⟨e2, rfl, p2⟩ := patch_step_field K pfx pathPrefix d
    ("paused", "paused") _ _ _ _ _
    (by rw [String.append_assoc]; rfl) (by simp [specValue]) h2
  obtain ⟨e3, rfl, p3⟩ := patch_step_field K pfx pathPrefix d
    ("progress_deadline_seconds", "progressDeadlineSeconds") _ _ _ _ _
    (by rw [String.append_assoc]; rfl) (by simp [specValue]) h3
  obtain ⟨e4, rfl, p4⟩ := patch_step_field K pfx pathPrefix d
    ("replicas", "replicas") _ _ _ _ _
    (by rw [String.append_assoc]; rfl) (by simp [specValue]) h4
  obtain ⟨e5, rfl, p5⟩ := patch_step_field K pfx pathPrefix d
    ("revision_history_limit", "revisionHistoryLimit") _ _ _ _ _
    (by rw [String.append_assoc]; rfl) (by simp [specValue]) h5
  obtain ⟨e6, rfl, p6⟩ := patch_step_field K pfx pathPrefix d
    ("rollback_to", "rollbackTo") _ _ _ _ _
    (by rw [String.append_assoc]; rfl) (by simp [specValue]) h6
  obtain ⟨e7, rfl, p7⟩ := patch_step_field K pfx pathPrefix d
    ("selector", "selector") _ _ _ _ _
    (by rw [String.append_assoc]; rfl) (by simp [specValue]) h7
  obtain ⟨e8, rfl, p8⟩ := patch_step_field K pfx pathPrefix d
    ("strategy", "strategy") _ _ _ _ _
    (by rw [String.append_assoc]; rfl) (by simp [specValue]) h8
  obtain ⟨e9, rfl, p9⟩ := patch_step_field K pfx pathPrefix d
    ("template", "template") _ _ _ _ _
    (by rw [String.append_assoc]; rfl) (by simp [specValue]) h9
  refine ⟨[o1, e2, e3, e4, e5, e6, e7, e8, e9], by simp, ?_⟩
  unfold fieldTable
  exact .cons p1 (.cons p2 (.cons p3 (.cons p4 (.cons p5 (.cons p6 (.cons p7
    (.cons p8 (.cons p9 .nil))))))))

theorem emitsField_paths (K : Mappers Meta Pod) (pfx pathPrefix : String) (d : ResourceData)
    (table : List (String × String)) (es : List (List (PatchOperation Meta Pod)))
    (hF : List.Forall₂ (emitsField K pfx pathPrefix d) table es) :
    es.flatten.map (fun op => op.Path) =
      (table.filter fun f => d.HasChange (pfx ++ f.1)).map
        fun f => pathPrefix ++ "/" ++ f.2 := by
  induction hF with
  | nil => rfl
  | @cons f e table es hfe _ ih =>
    rw [List.flatten_cons, List.map_append, ih, hfe.1]
    cases hc : d.HasChange (pfx ++ f.1) <;> simp [List.filter, hc]

theorem emitsField_mem (K : Mappers Meta Pod) (pfx pathPrefix : String) (d : ResourceData)
    (table : List (String × String)) (es : List (List (PatchOperation Meta Pod)))
    (hF : List.Forall₂ (emitsField K pfx pathPrefix d) table es)
    (op : PatchOperation Meta Pod) (hop : op ∈ es.flatten) :
    op.Op = OpKind.replace ∧ ∃ f ∈ table, d.HasChange (pfx ++ f.1) = true ∧
      op.Path = pathPrefix ++ "/" ++ f.2 ∧
      specValue K f.1 (d.Get (pfx ++ f.1)) = some op.Value := by
  induction hF with
  | nil => simp at hop
  | @cons f e table es hfe _ ih =>
    rw [List.flatten_cons, List.mem_append] at hop
    rcases hop with hop | hop
    · obtain ⟨h1, h2, h3, h4⟩ := hfe.2 op hop
      exact ⟨h2, f, List.mem_cons_self _ _, h1, h3, h4⟩
    · obtain ⟨h2, g, hg, rest⟩ := ih hop
      exact ⟨h2, g, List.mem_cons_of_mem _ hg, rest⟩

omit [Inhabited Meta] [Inhabited Pod] in
theorem patch_step_defined {α : Type} (c : Bool) (y : Option α) (p : String)
    (g : α → PatchValue Meta Pod) (ops : List (PatchOperation Meta Pod))
    (hy : c = true → (y.map g).isSome = true) :
    ∃ o, (if c = true then y.map (fun v => ops ++ [ReplaceOperation p (g v)])
      else some ops) = some o := by
  cases c with
  | false => exact ⟨ops, by simp⟩
  | true =>
    cases y with
    | none => simp at hy
    | some v => exact ⟨ops ++ [ReplaceOperation p (g v)], by simp⟩

theorem patchDeploymentSpec_defined (K : Mappers Meta Pod) (pfx pathPrefix : String)
    (d : ResourceData) (hw : wellShaped K pfx d) :
    (patchDeploymentSpec K pfx pathPrefix d).isSome = true := by
  unfold wellShaped fieldTable at hw
  simp only [List.mem_cons, List.mem_singleton, List.not_mem_nil, or_false,
    forall_eq_or_imp, forall_eq] at hw
  obtain ⟨w1, w2, w3, w4, w5, w6, w7, w8, w9⟩ := hw
  unfold patchDeploymentSpec
  obtain ⟨o1, h1⟩ := patch_step_defined (d.HasChange (pfx ++ "min_ready_seconds"))
    (d.Get (pfx ++ "min_ready_seconds")).asInt (pathPrefix ++ "/minReadySeconds")
    (PatchValue.int : Int → PatchValue Meta Pod) [] (by simpa [specValue] using w1)
  obtain ⟨o2, h2⟩ := patch_step_defined (d.HasChange (pfx ++ "paused"))
    (d.Get (pfx ++ "paused")).asBool (pathPrefix ++ "/paused")
    (PatchValue.bool : Bool → PatchValue Meta Pod) o1 (by simpa [specValue] using w2)
  obtain ⟨o3, h3⟩ := patch_step_defined (d.HasChange (pfx ++ "progress_deadline_seconds"))
    (d.Get (pfx ++ "progress_deadline_seconds")).asInt
    (pathPrefix ++ "/progressDeadlineSeconds")
    (PatchValue.int : Int → PatchValue Meta Pod) o2 (by simpa [specValue] using w3)
  obtain ⟨o4, h4⟩ := patch_step_defined (d.HasChange (pfx ++ "replicas"))
    (d.Get (pfx ++ "replicas")).asInt (pathPrefix ++ "/replicas")
    (PatchValue.int : Int → PatchValue Meta Pod) o3 (by simpa [specValue] using w4)
  obtain ⟨o5, h5⟩ := patch_step_defined (d.HasChange (pfx ++ "revision_history_limit"))
    (d.Get (pfx ++ "revision_history_limit")).asInt (pathPrefix ++ "/revisionHistoryLimit")
    (PatchValue.int : Int → PatchValue Meta Pod) o4 (by simpa [specValue] using w5)
  obtain ⟨o6, h6⟩ := patch_step_defined (d.HasChange (pfx ++ "rollback_to"))
    ((d.Get (pfx ++ "rollback_to")).asList.bind expandRollbackToReferance)
    (pathPrefix ++ "/rollbackTo")
    (PatchValue.rollbackTo : _ → PatchValue Meta Pod) o5 (by simpa [specValue] using w6)
  obtain ⟨o7, h7⟩ := patch_step_defined (d.HasChange (pfx ++ "selector"))
    ((d.Get (pfx ++ "selector")).asList.bind expandSelectorReferance)
    (pathPrefix ++ "/selector")
    (PatchValue.selector : _ → PatchValue Meta Pod) o6 (by simpa [specValue] using w7)
  obtain ⟨o8, h8⟩ := patch_step_defined (d.HasChange (pfx ++ "strategy"))
    ((d.Get (pfx ++ "strategy")).asList.bind expandStrategyReferance)
    (pathPrefix ++ "/strategy")
    (PatchValue.strategy : _ → PatchValue Meta Pod) o7 (by simpa [specValue] using w8)
  obtain ⟨o9, h9⟩ := patch_step_defined (d.HasChange (pfx ++ "template"))
    ((d.Get (pfx ++ "template")).asList.bind (expandTemplateReferance K))
    (pathPrefix ++ "/template")
    (fun r => PatchValue.template r.1) o8 (by simpa [specValue] using w9)
  simp only [h1, h2, h3, h4, h5, h6, h7, h8, h9, Option.some_bind, Option.isSome_some]

/-- C6: the paths of the operations `patchDeploymentSpec` returns are the paths of the
nine fields in table order, filtered to the fields the oracle reports as changed, each
prefixed by `pathPrefix` and a slash; the patcher returns whenever each changed field has
a value of the asserted shape; and when exactly replicas, strategy and selector changed the
paths are those of replicas, selector, strategy, in that order. -/
theorem patchDeploymentSpec_paths_fixed_order (K : Mappers Meta Pod)
    (pfx pathPrefix : String) (d : ResourceData) :
    (∀ ops, patchDeploymentSpec K pfx pathPrefix d = some ops →
      ops.map (fun op => op.Path) =
        (changedFields pfx d).map fun f => pathPrefix ++ "/" ++ f.2) ∧
    (wellShaped K pfx d → (patchDeploymentSpec K pfx pathPrefix d).isSome = true) ∧
    (∀ ops, patchDeploymentSpec K pfx pathPrefix d = some ops →
      (∀ f ∈ fieldTable, d.HasChange (pfx ++ f.1) =
        (f.1 == "replicas" || f.1 == "strategy" || f.1 == "selector")) →
      ops.map (fun op => op.Path) =
        [pathPrefix ++ "/replicas", pathPrefix ++ "/selector", pathPrefix ++ "/strategy"]) := by
  have key : ∀ ops, patchDeploymentSpec K pfx pathPrefix d = some ops →
      ops.map (fun op => op.Path) =
        (changedFields pfx d).map fun f => pathPrefix ++ "/" ++ f.2 := by
    intro ops h
    obtain ⟨es, rfl, hF⟩ := patchDeploymentSpec_decompose K pfx pathPrefix d ops h
    exact emitsField_paths K pfx pathPrefix d fieldTable es hF
  refine ⟨key, patchDeploymentSpec_defined K pfx pathPrefix d, ?_⟩
  intro ops h hch
  rw [key ops h]
  unfold changedFields
  unfold fieldTable at hch ⊢
  simp only [List.mem_cons, List.mem_singleton, List.not_mem_nil, or_false,
    forall_eq_or_imp, forall_eq] at hch
  obtain ⟨w1, w2, w3, w4, w5, w6, w7, w8, w9⟩ := hch
  simp [List.filter, w1, w2, w3, w4, w5, w6, w7, w8, w9, String.append_assoc]

/-- C6 at `sampleChange` (replicas, strategy and selector changed): three operations, in
the order replicas, selector, strategy. -/
theorem patchDeploymentSpec_paths_fixed_order_witness :
    wellShaped sampleMappers "spec.0." sampleChange ∧
    ∃ ops, patchDeploymentSpec sampleMappers "spec.0." "/spec" sampleChange = some ops ∧
      ops.map (fun op => op.Path) = ["/spec/replicas", "/spec/selector", "/spec/strategy"] ∧
      ops.length = 3 := by
  have hw : wellShaped sampleMappers "spec.0." sampleChange := by
    unfold wellShaped fieldTable
    decide
  have hd := (patchDeploymentSpec_paths_fixed_order sampleMappers "spec.0." "/spec"
    sampleChange).2.1 hw
  obtain ⟨ops, hops⟩ := Option.isSome_iff_exists.mp hd
  have hp := (patchDeploymentSpec_paths_fixed_order sampleMappers "spec.0." "/spec"
    sampleChange).1 ops hops
  have hl : ops.map (fun op => op.Path) =
      ["/spec/replicas", "/spec/selector", "/spec/strategy"] := by
    rw [hp]; decide
  refine ⟨hw, ops, hops, hl, ?_⟩
  have := congrArg List.length hl
  simpa using this

/-- C7: every operation `patchDeploymentSpec` returns is a replace operation for one of
the changed fields of the table, and its value is what `specValue` gives for the new
configuration value of that field: the asserted integer or boolean itself for the scalar
fields, the result of the matching expand function for the composite ones. -/
theorem patchDeploymentSpec_values (K : Mappers Meta Pod) (pfx pathPrefix : String)
    (d : ResourceData) (ops : List (PatchOperation Meta Pod))
    (h : patchDeploymentSpec K pfx pathPrefix d = some ops) :
    ∀ op ∈ ops, op.Op = OpKind.replace ∧
      ∃ f ∈ fieldTable, d.HasChange (pfx ++ f.1) = true ∧
        op.Path = pathPrefix ++ "/" ++ f.2 ∧
        specValue K f.1 (d.Get (pfx ++ f.1)) = some op.Value := by
  obtain ⟨es, rfl, hF⟩ := patchDeploymentSpec_decompose K pfx pathPrefix d ops h
  intro op hop
  exact emitsField_mem K pfx pathPrefix d fieldTable es hF op hop

/-- C7 at `sampleChange`: the three operations returned there, with the new replicas
value 0 verbatim and the expanded selector and strategy. -/
theorem patchDeploymentSpec_values_witness :
    patchDeploymentSpec sampleMappers "spec.0." "/spec" sampleChange =
      some [ReplaceOperation "/spec/replicas" (PatchValue.int 0),
        ReplaceOperation "/spec/selector" (PatchValue.selector (some LabelSelector.zero)),
        ReplaceOperation "/spec/strategy" (PatchValue.strategy ⟨"Recreate", none⟩)] ∧
    ∀ op ∈ [ReplaceOperation "/spec/replicas" (PatchValue.int 0),
        ReplaceOperation "/spec/selector" (PatchValue.selector (some LabelSelector.zero)),
        ReplaceOperation "/spec/strategy" (PatchValue.strategy ⟨"Recreate", none⟩)],
      op.Op = OpKind.replace ∧
      ∃ f ∈ fieldTable, sampleChange.HasChange ("spec.0." ++ f.1) = true ∧
        op.Path = "/spec" ++ "/" ++ f.2 ∧
        specValue sampleMappers f.1 (sampleChange.Get ("spec.0." ++ f.1)) = some op.Value :=
  ⟨by decide, patchDeploymentSpec_values sampleMappers "spec.0." "/spec" sampleChange _
    (by decide)⟩

/-- C8: when only `paused` changed, and its new value is the boolean `b`, the patcher
returns exactly the one replace operation with path `pathPrefix + "/paused"` and value
`b`; whenever the patcher returns, the number of operations is the number of changed
fields (one for one changed field); and when no field changed it returns the empty
list. -/
theorem patchDeploymentSpec_minimal (K : Mappers Meta Pod) (pfx pathPrefix : String)
    (d : ResourceData) :
    (∀ b, d.Get (pfx ++ "paused") = Value.bool b →
      (∀ f ∈ fieldTable, d.HasChange (pfx ++ f.1) = (f.1 == "paused")) →
      patchDeploymentSpec K pfx pathPrefix d =
        some [ReplaceOperation (pathPrefix ++ "/paused") (PatchValue.bool b)]) ∧
    (∀ ops, patchDeploymentSpec K pfx pathPrefix d = some ops →
      ops.length = (changedFields pfx d).length) ∧
    ((∀ f ∈ fieldTable, d.HasChange (pfx ++ f.1) = false) →
      patchDeploymentSpec K pfx pathPrefix d = some []) := by
  refine ⟨?_, ?_, ?_⟩
  · intro b hb hch
    unfold fieldTable at hch
    simp only [List.mem_cons, List.mem_singleton, List.not_mem_nil, or_false,
      forall_eq_or_imp, forall_eq] at hch
    obtain ⟨w1, w2, w3, w4, w5, w6, w7, w8, w9⟩ := hch
    simp [patchDeploymentSpec, w1, w2, w3, w4, w5, w6, w7, w8, w9, hb, Value.asBool]
  · intro ops h
    obtain ⟨es, rfl, hF⟩ := patchDeploymentSpec_decompose K pfx pathPrefix d ops h
    have hl := congrArg List.length (emitsField_paths K pfx pathPrefix d fieldTable es hF)
    rw [List.length_map, List.length_map] at hl
    exact hl
  · intro hch
    unfold fieldTable at hch
    simp only [List.mem_cons, List.mem_singleton, List.not_mem_nil, or_false,
      forall_eq_or_imp, forall_eq] at hch
    obtain ⟨w1, w2, w3, w4, w5, w6, w7, w8, w9⟩ := hch
    simp [patchDeploymentSpec, w1, w2, w3, w4, w5, w6, w7, w8, w9]

/-- C8 at `samplePaused` with an empty path prefix: the single operation has path
`/paused` and the new boolean as its value. -/
theorem patchDeploymentSpec_minimal_witness :
    patchDeploymentSpec sampleMappers "spec.0." "" samplePaused =
      some [ReplaceOperation "/paused" (PatchValue.bool true)] := by
  have h := (patchDeploymentSpec_minimal sampleMappers "spec.0." "" samplePaused).1 true
    rfl (by unfold fieldTable; decide)
  rw [h]
  decide

end PatchLemmas

/-! ## The int-or-string codec -/

theorem digitVal_digitChar (n : Nat) (h : n < 10) : digitVal (Nat.digitChar n) = some n := by
  interval_cases n <;> decide

theorem parseDigits_append (l1 l2 : List Char) (acc : Nat) :
    parseDigits (l1 ++ l2) acc = (parseDigits l1 acc).bind (parseDigits l2) := by
  induction l1 generalizing acc with
  | nil => rfl
  | cons c cs ih =>
    simp only [List.cons_append, parseDigits]
    cases digitVal c with
    | none => rfl
    | some d => exact ih _

theorem toDigitsCore_append (fuel n : Nat) (ds : List Char) :
    Nat.toDigitsCore 10 fuel n ds = Nat.toDigitsCore 10 fuel n [] ++ ds := by
  induction fuel generalizing n ds with
  | zero => rfl
  | succ f ih =>
    simp only [Nat.toDigitsCore]
    split
    · rfl
    · rw [ih (n / 10) (_ :: ds), ih (n / 10) [_]]
      simp

theorem parseDigits_toDigitsCore (fuel n : Nat) (h : n < fuel) :
    parseDigits (Nat.toDigitsCore 10 fuel n []) 0 = some n := by
  induction fuel generalizing n with
  | zero => omega
  | succ f ih =>
    simp only [Nat.toDigitsCore]
    split
    · rename_i h0
      have hn : n < 10 := by omega
      have hm : n % 10 = n := Nat.mod_eq_of_lt hn
      simp [parseDigits, hm, digitVal_digitChar n hn]
    · rename_i h0
      rw [toDigitsCore_append, parseDigits_append, ih (n / 10) (by omega)]
      have hd := digitVal_digitChar (n % 10) (Nat.mod_lt _ (by decide))
      simp only [Option.some_bind, parseDigits, hd]
      congr 1
      omega

theorem toDigitsCore_ne_nil (fuel n : Nat) :
    Nat.toDigitsCore 10 (fuel + 1) n [] ≠ [] := by
  simp only [Nat.toDigitsCore]
  split
  · simp
  · rw [toDigitsCore_append]; simp

theorem parseDigits_head (c : Char) (cs : List Char) (acc n : Nat)
    (h : parseDigits (c :: cs) acc = some n) : c ≠ '-' ∧ c ≠ '+' := by
  simp only [parseDigits] at h
  constructor
  · rintro rfl
    simp [digitVal] at h
  · rintro rfl
    simp [digitVal] at h


theorem atoi_toString_nat (n : Nat) (h : n ≤ 9223372036854775807) :
    atoi (toString n) = some (n : Int) := by
  have hp := parseDigits_toDigitsCore (n + 1) n (Nat.lt_succ_self n)
  have hne := toDigitsCore_ne_nil n n
  unfold atoi
  have hs : (toString n).toList = Nat.toDigitsCore 10 (n + 1) n [] := rfl
  rw [hs]
  cases hl : Nat.toDigitsCore 10 (n + 1) n [] with
  | nil => exact absurd hl hne
  | cons c cs =>
    rw [hl] at hp
    obtain ⟨h1, h2⟩ := parseDigits_head c cs 0 n hp
    simp [h1, h2, parseNat, hp, h]

theorem atoi_toString (i : Int) (h : -9223372036854775808 ≤ i ∧ i ≤ 9223372036854775807) :
    atoi (toString i) = some i := by
  cases i with
  | ofNat n =>
    have hn : n ≤ 9223372036854775807 := by
      have := h.2
      simp only [Int.ofNat_eq_coe] at this
      omega
    exact atoi_toString_nat n hn
  | negSucc m =>
    have hm : m + 1 ≤ 9223372036854775808 := by
      have := h.1
      rw [Int.negSucc_eq] at this
      omega
    have hp := parseDigits_toDigitsCore (m + 1 + 1) (m + 1) (Nat.lt_succ_self _)
    have hne := toDigitsCore_ne_nil (m + 1) (m + 1)
    have hs : (toString (Int.negSucc m)).toList =
        '-' :: Nat.toDigitsCore 10 (m + 1 + 1) (m + 1) [] := rfl
    unfold atoi
    rw [hs]
    cases hl : Nat.toDigitsCore 10 (m + 1 + 1) (m + 1) [] with
    | nil => exact absurd hl hne
    | cons c cs =>
      rw [hl] at hp
      simp only [if_true, parseNat, hp, Option.some_bind]
      rw [if_pos hm]
      congr 1

theorem wrap32_of_inInt32 (i : Int) (h : inInt32 i) : wrap32 i = i := by
  unfold inInt32 at h
  unfold wrap32
  omega

theorem inInt32_wrap32 (i : Int) : inInt32 (wrap32 i) := by
  unfold inInt32 wrap32
  omega

theorem length_pos_of_ne_empty (v : String) (h : v ≠ "") : v.length > 0 := by
  rcases v with ⟨l⟩
  cases l with
  | nil => exact absurd rfl h
  | cons c cs => simp [String.length]

theorem ne_empty_of_atoi (v : String) (n : Int) (h : atoi v = some n) : v ≠ "" := by
  rintro rfl
  simp [atoi] at h

/-- The int-or-string block of `expandRollingUpdateReferance` on a key that holds a
non-empty string. -/
theorem expandIntOrStringField_str (m : Fields) (k v : String)
    (hk : m.lookup k = some (Value.str v)) (hv : v ≠ "") :
    expandIntOrStringField m k =
      match atoi v with
      | none => some { Typ := IntStrType.String, IntVal := 0, StrVal := v }
      | some i => some { Typ := IntStrType.Int, IntVal := wrap32 i, StrVal := "" } := by
  have hl := length_pos_of_ne_empty v hv
  simp [expandIntOrStringField, getString, hk, hl]

/-- C4 (counterexample): `"4294967296"` parses as the integer 4294967296, and the value
stored for it is the integer form holding 0, not the parsed integer; and
`"9223372036854775808"`, a decimal integer that `strconv.Atoi` rejects as out of range,
is kept in the string form. -/
theorem expandRollingUpdateReferance_integer_not_preserved :
    atoi "4294967296" = some 4294967296 ∧
    expandRollingUpdateReferance [Value.map [("max_surge", Value.str "4294967296")]] =
      some (some ⟨none, some ⟨IntStrType.Int, 0, ""⟩⟩) ∧
    expandRollingUpdateReferance
        [Value.map [("max_unavailable", Value.str "9223372036854775808")]] =
      some (some ⟨some ⟨IntStrType.String, 0, "9223372036854775808"⟩, none⟩) := by
  decide

/-- C4 (amended): on a tree whose first element is a map, `expandRollingUpdateReferance`
returns a policy (no panic, no error) in which, for a non-empty string `v` under
`max_surge` (likewise `max_unavailable`), the field is the integer form holding the parsed
integer reduced into the signed 32-bit range when `strconv.Atoi` accepts `v` (the parsed
integer itself when it is in that range), and otherwise the string form holding exactly
`v`. -/
theorem expandRollingUpdateReferance_codec (m : Fields) (rest : List Value) :
    ∃ ru : RollingUpdateDeployment,
      expandRollingUpdateReferance (Value.map m :: rest) = some (some ru) ∧
      (∀ v, m.lookup "max_surge" = some (Value.str v) → v ≠ "" →
        (∀ n, atoi v = some n →
          ru.MaxSurge = some ⟨IntStrType.Int, wrap32 n, ""⟩ ∧
          (inInt32 n → ru.MaxSurge = some ⟨IntStrType.Int, n, ""⟩)) ∧
        (atoi v = none → ru.MaxSurge = some ⟨IntStrType.String, 0, v⟩)) ∧
      (∀ v, m.lookup "max_unavailable" = some (Value.str v) → v ≠ "" →
        (∀ n, atoi v = some n →
          ru.MaxUnavailable = some ⟨IntStrType.Int, wrap32 n, ""⟩ ∧
          (inInt32 n → ru.MaxUnavailable = some ⟨IntStrType.Int, n, ""⟩)) ∧
        (atoi v = none → ru.MaxUnavailable = some ⟨IntStrType.String, 0, v⟩)) := by
  refine ⟨_, rfl, ?_, ?_⟩
  · intro v hk hv
    have h := expandIntOrStringField_str m "max_surge" v hk hv
    refine ⟨?_, ?_⟩
    · intro n hn
      rw [hn] at h
      simp only at h
      refine ⟨h, fun hr => ?_⟩
      have h2 := h
      rw [wrap32_of_inInt32 n hr] at h2
      exact h2
    · intro hn
      rw [hn] at h
      exact h
  · intro v hk hv
    have h := expandIntOrStringField_str m "max_unavailable" v hk hv
    refine ⟨?_, ?_⟩
    · intro n hn
      rw [hn] at h
      simp only at h
      refine ⟨h, fun hr => ?_⟩
      have h2 := h
      rw [wrap32_of_inInt32 n hr] at h2
      exact h2
    · intro hn
      rw [hn] at h
      exact h

/-- C4 (amended) at `"5"`, `"25%"` and `"abc"`: integer 5, and the two strings kept
verbatim in the string form. -/
theorem expandRollingUpdateReferance_codec_witness :
    ∃ ru : RollingUpdateDeployment,
      expandRollingUpdateReferance
        [Value.map [("max_surge", Value.str "5"), ("max_unavailable", Value.str "25%")]] =
        some (some ru) ∧
      ru.MaxSurge = some ⟨IntStrType.Int, 5, ""⟩ ∧
      ru.MaxUnavailable = some ⟨IntStrType.String, 0, "25%"⟩ := by
  obtain ⟨ru, h, hs, hu⟩ := expandRollingUpdateReferance_codec
    [("max_surge", Value.str "5"), ("max_unavailable", Value.str "25%")] []
  refine ⟨ru, h, ?_, ?_⟩
  · exact ((hs "5" rfl (by decide)).1 5 (by decide)).2 (by decide)
  · exact (hu "25%" rfl (by decide)).2 (by decide)

theorem atoi_toString_int32 (n : Int) (h : inInt32 n) : atoi (toString n) = some n := by
  apply atoi_toString
  unfold inInt32 at h
  omega

/-- A string that renders back is expanded to a value whose rendering is that string. -/
theorem expandIntOrStringField_rendersBack (m : Fields) (k v : String)
    (hk : m.lookup k = some (Value.str v)) (hv : rendersBack v) :
    ∃ x, expandIntOrStringField m k = some x ∧ flattenIntOrString x = Value.str v := by
  rcases hv with ⟨hne, hno⟩ | ⟨n, hn, rfl⟩
  · refine ⟨{ Typ := IntStrType.String, IntVal := 0, StrVal := v }, ?_, ?_⟩
    · rw [expandIntOrStringField_str m k v hk hne, hno]
    · rfl
  · have ha := atoi_toString_int32 n hn
    refine ⟨{ Typ := IntStrType.Int, IntVal := wrap32 n, StrVal := "" }, ?_, ?_⟩
    · rw [expandIntOrStringField_str m k _ hk (ne_empty_of_atoi _ _ ha), ha]
    · simp [flattenIntOrString, wrap32_of_inInt32 n hn]

/-- C5 (counterexample): with `max_unavailable` left unset, flattening the expanded policy
panics; and `max_surge = "4294967296"` is rendered back as `"0"`. -/
theorem rollingUpdate_round_trip_fails :
    ((expandRollingUpdateReferance [Value.map [("max_surge", Value.str "5")]]).bind
      flattenRollingUpdateDeployment).isNone = true ∧
    ∃ out : Fields,
      (expandRollingUpdateReferance [Value.map [("max_surge", Value.str "4294967296"),
        ("max_unavailable", Value.str "1")]]).bind flattenRollingUpdateDeployment =
        some [Value.map out] ∧
      out.lookup "max_surge" = some (Value.str "0") :=
  ⟨by decide, _, rfl, rfl⟩

/-- C5 (amended): for a rolling-update tree in which `max_surge` and `max_unavailable` are
both set, each to a string that renders back (a non-empty string that `strconv.Atoi`
rejects, or the decimal rendering of a 32-bit integer), flattening the expanded policy is
defined and gives one map that holds each field as the string given on input. -/
theorem rollingUpdate_round_trip (m : Fields) (rest : List Value) (a b : String)
    (ha : m.lookup "max_surge" = some (Value.str a))
    (hb : m.lookup "max_unavailable" = some (Value.str b))
    (hra : rendersBack a) (hrb : rendersBack b) :
    ∃ out : Fields,
      (expandRollingUpdateReferance (Value.map m :: rest)).bind
        flattenRollingUpdateDeployment = some [Value.map out] ∧
      out.lookup "max_surge" = some (Value.str a) ∧
      out.lookup "max_unavailable" = some (Value.str b) := by
  obtain ⟨x, hx, hfx⟩ := expandIntOrStringField_rendersBack m "max_surge" a ha hra
  obtain ⟨y, hy, hfy⟩ := expandIntOrStringField_rendersBack m "max_unavailable" b hb hrb
  refine ⟨setKey (setKey [] "max_unavailable" (flattenIntOrString y)) "max_surge"
    (flattenIntOrString x), ?_, ?_, ?_⟩
  · simp only [expandRollingUpdateReferance, hx, hy, Option.some_bind,
      flattenRollingUpdateDeployment, Option.map_some']
  · rw [lookup_setKey_self, hfx]
  · rw [lookup_setKey_ne _ _ _ _ (by decide), lookup_setKey_self, hfy]

/-- C5 (amended) at `max_surge = "5"` and `max_unavailable = "25%"`. -/
theorem rollingUpdate_round_trip_witness :
    rendersBack "5" ∧ rendersBack "25%" ∧
    ∃ out : Fields,
      (expandRollingUpdateReferance
        [Value.map [("max_surge", Value.str "5"), ("max_unavailable", Value.str "25%")]]).bind
        flattenRollingUpdateDeployment = some [Value.map out] ∧
      out.lookup "max_surge" = some (Value.str "5") ∧
      out.lookup "max_unavailable" = some (Value.str "25%") :=
  have h5 : rendersBack "5" := Or.inr ⟨5, by decide, by decide⟩
  have hp : rendersBack "25%" := Or.inl ⟨by decide, by decide⟩
  ⟨h5, hp, rollingUpdate_round_trip _ [] "5" "25%" rfl rfl h5 hp⟩

/-! ## Expand after flatten -/

theorem expandStringMap_strs (ml : List (String × String)) :
    expandStringMap (ml.map fun e => (e.1, Value.str e.2)) = some ml := by
  induction ml with
  | nil => rfl
  | cons e rest ih =>
    simp [expandStringMap, Value.asString, ih]

theorem stringsOf_strs (vs : List String) : stringsOf (vs.map Value.str) = some vs := by
  induction vs with
  | nil => rfl
  | cons v rest ih => simp [stringsOf, Value.asString, ih]

theorem expandIntOrStringField_canonical (m : Fields) (k : String) (x : IntOrString)
    (hx : x.canonical) (hk : m.lookup k = some (flattenIntOrString x)) :
    expandIntOrStringField m k = some x := by
  obtain ⟨t, n, sv⟩ := x
  rcases hx with ⟨h1, h2, h3⟩ | ⟨h1, h2, h3, h4⟩
  · simp only at h1 h2 h3
    subst h1 h3
    have ha := atoi_toString_int32 n h2
    have hk2 : m.lookup k = some (Value.str (toString n)) := hk
    rw [expandIntOrStringField_str m k _ hk2 (ne_empty_of_atoi _ _ ha), ha]
    simp [wrap32_of_inInt32 n h2]
  · simp only at h1 h2 h3 h4
    subst h1 h2
    have hk2 : m.lookup k = some (Value.str sv) := hk
    rw [expandIntOrStringField_str m k _ hk2 h3, h4]

theorem flattenDeploymentSpec_lookups {Meta Pod : Type} (K : Mappers Meta Pod)
    (s : DeploymentSpec Meta Pod) (tree : List Value)
    (h : flattenDeploymentSpec K s = some tree) :
    ∃ (m : Fields) (sel tpl st rb : List Value), tree = [Value.map m] ∧
      flattenLabelSelectorReferance s.Selector = some sel ∧
      flattenTemplateReferance K s.Template = some tpl ∧
      flattenStrategyReferance s.Strategy = some st ∧
      flattenRollbackToReferance s.RollbackTo = some rb ∧
      m.lookup "replicas" = s.Replicas.map Value.int32 ∧
      m.lookup "selector" = some (Value.list sel) ∧
      m.lookup "template" = some (Value.list tpl) ∧
      m.lookup "strategy" = some (Value.list st) ∧
      m.lookup "min_ready_seconds" = some (Value.int32 s.MinReadySeconds) ∧
      m.lookup "revision_history_limit" = s.RevisionHistoryLimit.map Value.int32 ∧
      m.lookup "paused" = some (Value.bool s.Paused) ∧
      m.lookup "rollback_to" = some (Value.list rb) ∧
      m.lookup "progress_deadline_seconds" =
        s.ProgressDeadlineSeconds.map Value.int32 := by
  unfold flattenDeploymentSpec at h
  simp only [Option.bind_eq_some, Option.map_eq_some'] at h
  obtain ⟨sel, hsel, tpl, htpl, st, hst, rb, hrb, rfl⟩ := h
  refine ⟨_, sel, tpl, st, rb, rfl, hsel, htpl, hst, hrb, ?_⟩
  cases s.Replicas <;> cases s.RevisionHistoryLimit <;>
    cases s.ProgressDeadlineSeconds <;>
    simp [lookup_setKey_ne, lookup_setKey_self]

theorem expandDeploymentSpec_int32_min_ready {Meta Pod : Type} [Inhabited Meta]
    [Inhabited Pod] (m : Fields) (rest : List Value) (n : Int)
    (h : m.lookup "min_ready_seconds" = some (Value.int32 n)) :
    (expandDeploymentSpec (Value.map m :: rest) : Option (DeploymentSpec Meta Pod)) =
      none := by
  unfold expandDeploymentSpec
  simp only [h, Value.asInt, Option.map_none', Option.none_bind]

/-- C1 (counterexample): at `sampleSpecFlags`, a spec of user-settable fields with every
pointer set, `flattenDeploymentSpec` returns the tree shown, with the integers as `int32`
and `int64` and the labels as a `map[string]string`, and `expandDeploymentSpec` applied to
that tree panics. Given the same values under the same keys with the types that
`expandDeploymentSpec` asserts (`int`, `map[string]interface{}`), it returns a spec that
is still not the one flattened: the explicit zero of replicas and the template are gone. -/
theorem expand_flatten_round_trip_fails :
    flattenDeploymentSpec flagMappers sampleSpecFlags = some [Value.map
      [("replicas", Value.int32 0),
       ("selector", Value.list [Value.map
          [("match_labels", Value.strMap [("app", "web")]),
           ("match_expressions", Value.list [])]]),
       ("template", Value.list [Value.map
          [("metadata", Value.list [Value.map []]), ("spec", Value.list [Value.map []])]]),
       ("strategy", Value.list [Value.map
          [("type", Value.str "RollingUpdate"),
           ("rolling_update", Value.list [Value.map
              [("max_unavailable", Value.str "1"), ("max_surge", Value.str "25%")]])]]),
       ("min_ready_seconds", Value.int32 10),
       ("paused", Value.bool true),
       ("rollback_to", Value.list [Value.map [("revision", Value.int64 3)]]),
       ("progress_deadline_seconds", Value.int32 600)]] ∧
    ((flattenDeploymentSpec flagMappers sampleSpecFlags).bind expandDeploymentSpec :
      Option (DeploymentSpec Bool Bool)) = none ∧
    (expandDeploymentSpec [Value.map
      [("replicas", Value.int 0),
       ("selector", Value.list [Value.map
          [("match_labels", Value.map [("app", Value.str "web")]),
           ("match_expressions", Value.list [])]]),
       ("template", Value.list [Value.map
          [("metadata", Value.list [Value.map []]), ("spec", Value.list [Value.map []])]]),
       ("strategy", Value.list [Value.map
          [("type", Value.str "RollingUpdate"),
           ("rolling_update", Value.list [Value.map
              [("max_unavailable", Value.str "1"), ("max_surge", Value.str "25%")]])]]),
       ("min_ready_seconds", Value.int 10),
       ("paused", Value.bool true),
       ("rollback_to", Value.list [Value.map [("revision", Value.int 3)]]),
       ("progress_deadline_seconds", Value.int 600)]] :
      Option (DeploymentSpec Bool Bool)) =
      some { sampleSpecFlags with Replicas := none, Template := ⟨false, false⟩ } ∧
    sampleSpecFlags.Replicas = some 0 ∧ sampleSpecFlags.Template = ⟨true, true⟩ :=
  ⟨rfl, by decide, by decide, rfl, rfl⟩

/-- C1 (amended): for every spec on which `flattenDeploymentSpec` returns, the flattened
tree is one map that holds every user-settable field under its key, `replicas`,
`revision_history_limit` and `progress_deadline_seconds` exactly when they are set, with
the integers stored as `int32`; and `expandDeploymentSpec` applied to that tree does not
return, because it asserts `int` on `min_ready_seconds`. -/
theorem expand_flatten_undefined {Meta Pod : Type} [Inhabited Meta] [Inhabited Pod]
    (K : Mappers Meta Pod) (s : DeploymentSpec Meta Pod) (tree : List Value)
    (h : flattenDeploymentSpec K s = some tree) :
    (expandDeploymentSpec tree : Option (DeploymentSpec Meta Pod)) = none ∧
    ∃ (m : Fields) (sel tpl st rb : List Value), tree = [Value.map m] ∧
      flattenLabelSelectorReferance s.Selector = some sel ∧
      flattenTemplateReferance K s.Template = some tpl ∧
      flattenStrategyReferance s.Strategy = some st ∧
      flattenRollbackToReferance s.RollbackTo = some rb ∧
      m.lookup "replicas" = s.Replicas.map Value.int32 ∧
      m.lookup "selector" = some (Value.list sel) ∧
      m.lookup "template" = some (Value.list tpl) ∧
      m.lookup "strategy" = some (Value.list st) ∧
      m.lookup "min_ready_seconds" = some (Value.int32 s.MinReadySeconds) ∧
      m.lookup "revision_history_limit" = s.RevisionHistoryLimit.map Value.int32 ∧
      m.lookup "paused" = some (Value.bool s.Paused) ∧
      m.lookup "rollback_to" = some (Value.list rb) ∧
      m.lookup "progress_deadline_seconds" =
        s.ProgressDeadlineSeconds.map Value.int32 := by
  obtain ⟨m, sel, tpl, st, rb, rfl, hsel, htpl, hst, hrb, l1, l2, l3, l4, l5, l6, l7, l8, l9⟩ :=
    flattenDeploymentSpec_lookups K s tree h
  exact ⟨expandDeploymentSpec_int32_min_ready m [] _ l5,
    m, sel, tpl, st, rb, rfl, hsel, htpl, hst, hrb, l1, l2, l3, l4, l5, l6, l7, l8, l9⟩

/-- C1 (amended) at `sampleSpec`: flatten returns there, the tree holds `replicas` as the
`int32` 0 and `min_ready_seconds` as the `int32` 10, and expand does not return on it. -/
theorem expand_flatten_undefined_witness :
    ∃ (tree : List Value) (m : Fields),
      flattenDeploymentSpec sampleMappers sampleSpec = some tree ∧ tree = [Value.map m] ∧
      (expandDeploymentSpec tree : Option (DeploymentSpec Unit Unit)) = none ∧
      m.lookup "replicas" = some (Value.int32 0) ∧
      m.lookup "min_ready_seconds" = some (Value.int32 10) ∧
      m.lookup "revision_history_limit" = none := by
  obtain ⟨tree, ht⟩ := Option.isSome_iff_exists.mp
    (show (flattenDeploymentSpec sampleMappers sampleSpec).isSome = true by decide)
  obtain ⟨hn, m, _, _, _, _, hm, _, _, _, _, l1, _, _, _, l5, l6, _⟩ :=
    expand_flatten_undefined sampleMappers sampleSpec tree ht
  exact ⟨tree, m, ht, hm, hn, l1, l5, l6⟩

/-! ## Status conditions, first elements, and the expanders on their test inputs -/

theorem foldl_append_singleton {α β : Type} (f : α → β) (l : List α) (acc : List β) :
    l.foldl (fun acc val => acc ++ [f val]) acc = acc ++ l.map f := by
  induction l generalizing acc with
  | nil => simp
  | cons x rest ih => simp [List.foldl, ih]

/-- C11: the map `flattenDeploymentStatus` returns holds under `conditions` a list of the
same length as the condition list of the status, whose i-th element is the record
`{type, status, reason, message}` of the i-th condition; the list is the conditions
mapped one by one, so nothing is reordered, dropped or merged. -/
theorem flattenDeploymentStatus_conditions (st : DeploymentStatus) :
    ∃ (m : Fields) (cs : List (List (String × String))),
      flattenDeploymentStatus st = [Value.map m] ∧
      m.lookup "conditions" = some (Value.strMapList cs) ∧
      cs = st.Conditions.map flattenDeploymentConditionReferance ∧
      cs.length = st.Conditions.length ∧
      ∀ (i : Nat) (c : DeploymentCondition), st.Conditions[i]? = some c →
        cs[i]? = some [("type", c.Typ), ("status", c.Status), ("reason", c.Reason),
          ("message", c.Message)] := by
  refine ⟨_, st.Conditions.map flattenDeploymentConditionReferance, rfl, ?_, rfl, ?_, ?_⟩
  · rw [lookup_setKey_self, foldl_append_singleton]
    rfl
  · simp
  · intro i c hc
    simp [List.getElem?_map, hc, flattenDeploymentConditionReferance]

/-- C12: each of the seven expanders of a list bounded to one element gives on a
non-empty list the result it gives on the list of its first element alone, panics
included. -/
theorem expand_only_first_element {Meta Pod : Type} [Inhabited Meta] [Inhabited Pod]
    (K : Mappers Meta Pod) (v : Value) (rest : List Value) :
    (expandDeploymentSpec (v :: rest) : Option (DeploymentSpec Meta Pod)) =
      expandDeploymentSpec [v] ∧
    expandRollbackToReferance (v :: rest) = expandRollbackToReferance [v] ∧
    expandSelectorReferance (v :: rest) = expandSelectorReferance [v] ∧
    expandStrategyReferance (v :: rest) = expandStrategyReferance [v] ∧
    expandRollingUpdateReferance (v :: rest) = expandRollingUpdateReferance [v] ∧
    expandTemplateReferance K (v :: rest) = expandTemplateReferance K [v] ∧
    expandDeploymentStatus (v :: rest) = expandDeploymentStatus [v] := by
  cases v <;> exact ⟨rfl, rfl, rfl, rfl, rfl, rfl, rfl⟩

/-- C15: on the one-element list `[{revision: r}]` the result is a non-nil
`RollbackConfig` whose `Revision` is `r`, for every integer `r`. -/
theorem expandRollbackToReferance_revision (r : Int) :
    expandRollbackToReferance [Value.map [("revision", Value.int r)]] =
      some (some { Revision := r }) := by
  simp [expandRollbackToReferance, List.lookup, Value.asInt, RollbackConfig.zero]

theorem expandLabelSelectorRequirement_records (vs : List Value)
    (me : List LabelSelectorRequirement) (h : List.Forall₂ isRequirementRecord vs me) :
    expandLabelSelectorRequirement vs = some me := by
  induction h with
  | nil => rfl
  | @cons v r vs me hv _ ih =>
    obtain ⟨f, rfl, hk, ho, hs⟩ := hv
    simp [expandLabelSelectorRequirement, expandRequirement, hk, ho, hs, stringsOf_strs, ih]

/-- C13: on a selector tree whose `match_labels` is a map of strings and whose
`match_expressions` is a list of records `{key, operator, values}`,
`expandSelectorReferance` returns a non-nil selector whose `MatchLabels` holds exactly the
pairs of the map and whose `MatchExpressions` holds one requirement per record, in input
order, with the key, operator and values of the record; no combination of operator and
values is rejected. -/
theorem expandSelectorReferance_pass_through (m : Fields) (rest : List Value)
    (ml : List (String × String)) (vs : List Value) (me : List LabelSelectorRequirement)
    (hl : m.lookup "match_labels" = some (Value.map (ml.map fun e => (e.1, Value.str e.2))))
    (he : m.lookup "match_expressions" = some (Value.list vs))
    (hr : List.Forall₂ isRequirementRecord vs me) :
    expandSelectorReferance (Value.map m :: rest) =
      some (some { MatchLabels := ml, MatchExpressions := me }) := by
  have h1 := expandStringMap_strs ml
  have h2 := expandLabelSelectorRequirement_records vs me hr
  have hlen := hr.length_eq
  cases ml with
  | nil =>
    cases vs with
    | nil =>
      cases me with
      | nil => simp [expandSelectorReferance, getMap, getList, hl, he, LabelSelector.zero]
      | cons r me2 => simp at hlen
    | cons v vs2 =>
      simp [expandSelectorReferance, getMap, getList, hl, he, LabelSelector.zero, h2]
  | cons e ml2 =>
    simp only [List.map_cons] at h1 hl
    cases vs with
    | nil =>
      cases me with
      | nil => simp [expandSelectorReferance, getMap, getList, hl, he, LabelSelector.zero, h1]
      | cons r me2 => simp at hlen
    | cons v vs2 =>
      simp [expandSelectorReferance, getMap, getList, hl, he, LabelSelector.zero, h1, h2]

/-- C13 at the input of `TestExpandSelectorReferance`, and at a requirement with operator
`In` and an empty value set, which is constructed as it is. -/
theorem expandSelectorReferance_pass_through_witness :
    expandSelectorReferance [Value.map generateDumyLabelSelectorMap] =
      some (some generateDumyLabelSelector) ∧
    expandSelectorReferance [Value.map [("match_labels", Value.map []),
        ("match_expressions", Value.list [Value.map [("key", Value.str "k"),
          ("operator", Value.str "In"), ("values", Value.set [])]])]] =
      some (some { MatchLabels := [], MatchExpressions := [⟨"k", "In", []⟩] }) :=
  ⟨expandSelectorReferance_pass_through generateDumyLabelSelectorMap []
      [("a", "v"), ("b", "v2")] _ [⟨"key", "In", ["a", "b"]⟩, ⟨"key2", "NotIn", ["a2", "b2"]⟩]
      rfl rfl
      (.cons ⟨_, rfl, rfl, rfl, rfl⟩ (.cons ⟨_, rfl, rfl, rfl, rfl⟩ .nil)),
    expandSelectorReferance_pass_through _ [] [] _ [⟨"k", "In", []⟩] rfl rfl
      (.cons ⟨_, rfl, rfl, rfl, rfl⟩ .nil)⟩

/-- C14: on a tree with integers `a`, `d`, `r > 0`, `h > 0` in the 32-bit range under
`min_ready_seconds`, `progress_deadline_seconds`, `replicas`, `revision_history_limit`,
a boolean `p` under `paused`, and empty lists under `selector`, `template`, `rollback_to`
and `strategy`, `expandDeploymentSpec` returns the spec with those scalars, a non-nil
empty `Selector` and `RollbackTo`, and zero-valued `Strategy` and `Template`. -/
theorem expandDeploymentSpec_scalars {Meta Pod : Type} [Inhabited Meta] [Inhabited Pod]
    (m : Fields) (rest : List Value) (a d r h : Int) (p : Bool)
    (h1 : m.lookup "min_ready_seconds" = some (Value.int a))
    (h2 : m.lookup "paused" = some (Value.bool p))
    (h3 : m.lookup "progress_deadline_seconds" = some (Value.int d))
    (h4 : m.lookup "replicas" = some (Value.int r))
    (h5 : m.lookup "revision_history_limit" = some (Value.int h))
    (h6 : m.lookup "selector" = some (Value.list []))
    (_h7 : m.lookup "template" = some (Value.list []))
    (h8 : m.lookup "rollback_to" = some (Value.list []))
    (h9 : m.lookup "strategy" = some (Value.list []))
    (hr : 0 < r) (hh : 0 < h)
    (ra : inInt32 a) (rd : inInt32 d) (rr : inInt32 r) (rh : inInt32 h) :
    (expandDeploymentSpec (Value.map m :: rest) : Option (DeploymentSpec Meta Pod)) =
      some { Replicas := some r, Selector := some LabelSelector.zero,
             Template := PodTemplateSpec.zero, Strategy := DeploymentStrategy.zero,
             MinReadySeconds := a, RevisionHistoryLimit := some h, Paused := p,
             RollbackTo := some RollbackConfig.zero, ProgressDeadlineSeconds := some d } := by
  simp [expandDeploymentSpec, getInt, h1, h2, h3, h4, h5, h6, h8, h9, hr, hh,
    Value.asInt, Value.asBool, Value.asList, expandSelectorReferance,
    expandRollbackToReferance, expandStrategyReferance, DeploymentSpec.zero,
    wrap32_of_inInt32 _ ra, wrap32_of_inInt32 _ rd, wrap32_of_inInt32 _ rr,
    wrap32_of_inInt32 _ rh]

/-- C14 at the input of `TestExpandDeploymentSpec`: 10, false, 5, 7, 6. -/
theorem expandDeploymentSpec_scalars_witness :
    (expandDeploymentSpec [Value.map testSpecInput] : Option (DeploymentSpec Unit Unit)) =
      some { Replicas := some 7, Selector := some LabelSelector.zero,
             Template := PodTemplateSpec.zero, Strategy := DeploymentStrategy.zero,
             MinReadySeconds := 10, RevisionHistoryLimit := some 6, Paused := false,
             RollbackTo := some RollbackConfig.zero, ProgressDeadlineSeconds := some 5 } :=
  expandDeploymentSpec_scalars testSpecInput [] 10 5 7 6 false rfl rfl rfl rfl rfl rfl rfl
    rfl rfl (by decide) (by decide) (by decide) (by decide) (by decide) (by decide)

/-! ## The fields that `expandDeploymentSpec` assigns -/

section Fields

variable {Meta Pod : Type}

theorem selector_step_scalars (o : Option Value) (X s : DeploymentSpec Meta Pod)
    (h : (match o with
      | some v => v.asList.bind fun l =>
          (expandSelectorReferance l).map fun sel => { X with Selector := sel }
      | none => some X) = some s) : scalarPart s = scalarPart X := by
  cases o with
  | none => simp only [Option.some.injEq] at h; rw [← h]
  | some v =>
    simp only [Option.bind_eq_some, Option.map_eq_some'] at h
    obtain ⟨l, _, sel, _, rfl⟩ := h
    rfl

theorem rollback_step_scalars (o : Option Value) (X s : DeploymentSpec Meta Pod)
    (h : (match o with
      | some v => v.asList.bind fun l =>
          (expandRollbackToReferance l).map fun rb => { X with RollbackTo := rb }
      | none => some X) = some s) : scalarPart s = scalarPart X := by
  cases o with
  | none => simp only [Option.some.injEq] at h; rw [← h]
  | some v =>
    simp only [Option.bind_eq_some, Option.map_eq_some'] at h
    obtain ⟨l, _, sel, _, rfl⟩ := h
    rfl

theorem strategy_step_scalars (o : Option Value) (X s : DeploymentSpec Meta Pod)
    (h : (match o with
      | some v => v.asList.bind fun l =>
          (expandStrategyReferance l).map fun st => { X with Strategy := st }
      | none => some X) = some s) : scalarPart s = scalarPart X := by
  cases o with
  | none => simp only [Option.some.injEq] at h; rw [← h]
  | some v =>
    simp only [Option.bind_eq_some, Option.map_eq_some'] at h
    obtain ⟨l, _, sel, _, rfl⟩ := h
    rfl

theorem ints_step_scalars (o1 o2 o3 : Option Int) (s2 : DeploymentSpec Meta Pod) :
    scalarPart
      (let spec :=
        match o1 with
        | some v => { s2 with ProgressDeadlineSeconds := some (wrap32 v) }
        | none => s2
      let spec :=
        match o2 with
        | some v => if v > 0 then { spec with Replicas := some (wrap32 v) } else spec
        | none => spec
      let spec :=
        match o3 with
        | some v => if v > 0 then { spec with RevisionHistoryLimit := some (wrap32 v) } else spec
        | none => spec
      spec) =
      (s2.Template, s2.MinReadySeconds, s2.Paused,
        (match o1 with
          | some v => some (wrap32 v)
          | none => s2.ProgressDeadlineSeconds),
        (match o2 with
          | some v => if v > 0 then some (wrap32 v) else s2.Replicas
          | none => s2.Replicas),
        (match o3 with
          | some v => if v > 0 then some (wrap32 v) else s2.RevisionHistoryLimit
          | none => s2.RevisionHistoryLimit)) := by
  cases o1 <;> cases o2 <;> cases o3 <;> simp only [] <;> (try split_ifs) <;> rfl

end Fields

theorem expandDeploymentSpec_fields {Meta Pod : Type} [Inhabited Meta] [Inhabited Pod]
    (m : Fields) (rest : List Value) (s : DeploymentSpec Meta Pod)
    (h : expandDeploymentSpec (Value.map m :: rest) = some s) :
    s.Template = PodTemplateSpec.zero ∧
    (∀ n, m.lookup "min_ready_seconds" = some (Value.int n) → s.MinReadySeconds = wrap32 n) ∧
    (∀ b, m.lookup "paused" = some (Value.bool b) → s.Paused = b) ∧
    (∀ n, m.lookup "progress_deadline_seconds" = some (Value.int n) →
      s.ProgressDeadlineSeconds = some (wrap32 n)) ∧
    (∀ n, m.lookup "replicas" = some (Value.int n) →
      s.Replicas = if 0 < n then some (wrap32 n) else none) ∧
    (∀ n, m.lookup "revision_history_limit" = some (Value.int n) →
      s.RevisionHistoryLimit = if 0 < n then some (wrap32 n) else none) := by
  unfold expandDeploymentSpec at h
  simp only [Option.bind_eq_some] at h
  obtain ⟨s1, h1, s2, h2, s3, h3, s4, h4, h5⟩ := h
  have e5 := strategy_step_scalars _ _ _ h5
  have e4 := rollback_step_scalars _ _ _ h4
  have e3 := selector_step_scalars _ _ _ h3
  rw [e4, e3] at e5
  clear h3 h4 h5 e3 e4
  have e1 : s1.Template = PodTemplateSpec.zero ∧ s1.Paused = false ∧
      s1.ProgressDeadlineSeconds = none ∧ s1.Replicas = none ∧
      s1.RevisionHistoryLimit = none ∧
      (∀ n, m.lookup "min_ready_seconds" = some (Value.int n) →
        s1.MinReadySeconds = wrap32 n) := by
    cases hl : m.lookup "min_ready_seconds" with
    | none =>
      rw [hl] at h1
      simp only [Option.some.injEq] at h1
      subst h1
      exact ⟨rfl, rfl, rfl, rfl, rfl, by intro n hn; cases hn⟩
    | some v =>
      rw [hl] at h1
      simp only [Option.map_eq_some'] at h1
      obtain ⟨n, hn, rfl⟩ := h1
      refine ⟨rfl, rfl, rfl, rfl, rfl, ?_⟩
      intro k hk
      cases hk
      simp [Value.asInt] at hn
      simp [hn]
  have e2 : s2.Template = s1.Template ∧ s2.MinReadySeconds = s1.MinReadySeconds ∧
      s2.ProgressDeadlineSeconds = s1.ProgressDeadlineSeconds ∧ s2.Replicas = s1.Replicas ∧
      s2.RevisionHistoryLimit = s1.RevisionHistoryLimit ∧
      (∀ b, m.lookup "paused" = some (Value.bool b) → s2.Paused = b) := by
    cases hl : m.lookup "paused" with
    | none =>
      rw [hl] at h2
      simp only [Option.some.injEq] at h2
      subst h2
      exact ⟨rfl, rfl, rfl, rfl, rfl, by intro n hn; cases hn⟩
    | some v =>
      rw [hl] at h2
      simp only [Option.map_eq_some'] at h2
      obtain ⟨n, hn, rfl⟩ := h2
      refine ⟨rfl, rfl, rfl, rfl, rfl, ?_⟩
      intro k hk
      cases hk
      simp [Value.asBool] at hn
      simp [hn]
  clear h1 h2
  obtain ⟨a1, a2, a3, a4, a5, a6⟩ := e1
  obtain ⟨b1, b2, b3, b4, b5, b6⟩ := e2
  have e := e5.trans (ints_step_scalars (getInt m "progress_deadline_seconds")
    (getInt m "replicas") (getInt m "revision_history_limit") s2)
  clear e5
  simp only [scalarPart, Prod.mk.injEq] at e
  obtain ⟨c1, c2, c3, c4, c5, c6⟩ := e
  refine ⟨?_, ?_, ?_, ?_, ?_, ?_⟩
  · rw [c1, b1, a1]
  · intro n hn
    rw [c2, b2, a6 n hn]
  · intro b hb
    rw [c3, b6 b hb]
  · intro n hn
    have hg : getInt m "progress_deadline_seconds" = some n := by simp [getInt, hn]
    rw [c4, hg]
  · intro n hn
    have hg : getInt m "replicas" = some n := by simp [getInt, hn]
    rw [c5, hg, b4, a4]
  · intro n hn
    have hg : getInt m "revision_history_limit" = some n := by simp [getInt, hn]
    rw [c6, hg, b5, a5]

/-! ## One operation per top-level field -/

theorem string_append_left_cancel (p a b : String) (h : p ++ a = p ++ b) : a = b := by
  have hd := congrArg String.data h
  simp only [String.data_append] at hd
  exact String.ext (List.append_cancel_left hd)

theorem fieldTable_no_slash : ∀ f ∈ fieldTable, '/' ∉ f.2.toList := by
  unfold fieldTable
  decide

theorem fieldTable_api_injective :
    ∀ x ∈ fieldTable, ∀ y ∈ fieldTable, x.2 = y.2 → x = y := by
  unfold fieldTable
  decide

section PatchMore

variable {Meta Pod : Type} [Inhabited Meta] [Inhabited Pod]

theorem emitsField_changed (K : Mappers Meta Pod) (pfx pathPrefix : String)
    (d : ResourceData) (table : List (String × String))
    (es : List (List (PatchOperation Meta Pod)))
    (hF : List.Forall₂ (emitsField K pfx pathPrefix d) table es)
    (f : String × String) (hf : f ∈ table) (hc : d.HasChange (pfx ++ f.1) = true) :
    ∃ op ∈ es.flatten, op.Op = OpKind.replace ∧ op.Path = pathPrefix ++ "/" ++ f.2 ∧
      specValue K f.1 (d.Get (pfx ++ f.1)) = some op.Value := by
  induction hF with
  | nil => simp at hf
  | @cons g e table es hge _ ih =>
    rw [List.flatten_cons]
    rcases List.mem_cons.mp hf with rfl | hf2
    · have hp := hge.1
      rw [if_pos hc] at hp
      cases e with
      | nil => simp at hp
      | cons op rest =>
        obtain ⟨_, h2, h3, h4⟩ := hge.2 op (List.mem_cons_self _ _)
        exact ⟨op, List.mem_append_left _ (List.mem_cons_self _ _), h2, h3, h4⟩
    · obtain ⟨op, hop, rest⟩ := ih hf2
      exact ⟨op, List.mem_append_right _ hop, rest⟩

/-- C16: every path `patchDeploymentSpec` returns is `pathPrefix`, a slash and one of the
nine API field names of the table, none of which contains a slash; the paths are pairwise
distinct and there are at most nine operations; and when selector and template both
changed, two different operations are returned, one with path
`pathPrefix + "/selector"` and one with path `pathPrefix + "/template"`. -/
theorem patchDeploymentSpec_no_merging (K : Mappers Meta Pod) (pfx pathPrefix : String)
    (d : ResourceData) (ops : List (PatchOperation Meta Pod))
    (h : patchDeploymentSpec K pfx pathPrefix d = some ops) :
    (∀ op ∈ ops, ∃ f ∈ fieldTable, op.Path = pathPrefix ++ "/" ++ f.2 ∧
      '/' ∉ f.2.toList) ∧
    (ops.map fun op => op.Path).Nodup ∧
    ops.length ≤ 9 ∧
    (d.HasChange (pfx ++ "selector") = true → d.HasChange (pfx ++ "template") = true →
      ∃ o1 ∈ ops, ∃ o2 ∈ ops, o1.Path = pathPrefix ++ "/selector" ∧
        o2.Path = pathPrefix ++ "/template" ∧ o1 ≠ o2) := by
  obtain ⟨es, rfl, hF⟩ := patchDeploymentSpec_decompose K pfx pathPrefix d ops h
  have hpaths := emitsField_paths K pfx pathPrefix d fieldTable es hF
  refine ⟨?_, ?_, ?_, ?_⟩
  · intro op hop
    obtain ⟨_, f, hf, _, hp, _⟩ := emitsField_mem K pfx pathPrefix d fieldTable es hF op hop
    exact ⟨f, hf, hp, fieldTable_no_slash f hf⟩
  · rw [hpaths]
    apply List.Nodup.map_on
    · intro x hx y hy hxy
      have hx2 := (List.mem_filter.mp hx).1
      have hy2 := (List.mem_filter.mp hy).1
      have h2 : x.2 = y.2 := string_append_left_cancel _ _ _ hxy
      exact fieldTable_api_injective x hx2 y hy2 h2
    · exact List.Nodup.filter _ (by unfold fieldTable; decide)
  · have hl := congrArg List.length hpaths
    rw [List.length_map, List.length_map] at hl
    rw [hl]
    exact le_trans (List.length_filter_le _ _) (by unfold fieldTable; decide)
  · intro hs ht
    obtain ⟨o1, m1, _, p1, _⟩ := emitsField_changed K pfx pathPrefix d fieldTable es hF
      ("selector", "selector") (by unfold fieldTable; decide) hs
    obtain ⟨o2, m2, _, p2, _⟩ := emitsField_changed K pfx pathPrefix d fieldTable es hF
      ("template", "template") (by unfold fieldTable; decide) ht
    have q1 : o1.Path = pathPrefix ++ "/selector" := by
      rw [p1, String.append_assoc]; rfl
    have q2 : o2.Path = pathPrefix ++ "/template" := by
      rw [p2, String.append_assoc]; rfl
    refine ⟨o1, m1, o2, m2, q1, q2, ?_⟩
    intro heq
    rw [heq, q2] at q1
    have := string_append_left_cancel _ _ _ q1
    revert this
    decide

end PatchMore

/-- C16 at `sampleSelectorTemplate` (selector and template changed): two operations, one
per top-level field. -/
theorem patchDeploymentSpec_no_merging_witness :
    patchDeploymentSpec flagMappers "spec.0." "/spec" sampleSelectorTemplate =
      some [ReplaceOperation "/spec/selector" (PatchValue.selector (some LabelSelector.zero)),
        ReplaceOperation "/spec/template" (PatchValue.template ⟨true, true⟩)] ∧
    ∃ o1 ∈ [ReplaceOperation "/spec/selector" (PatchValue.selector (some LabelSelector.zero)),
        ReplaceOperation "/spec/template" (PatchValue.template (⟨true, true⟩ :
          PodTemplateSpec Bool Bool))],
      ∃ o2 ∈ [ReplaceOperation "/spec/selector"
          (PatchValue.selector (some LabelSelector.zero)),
        ReplaceOperation "/spec/template" (PatchValue.template (⟨true, true⟩ :
          PodTemplateSpec Bool Bool))],
        o1.Path = "/spec" ++ "/selector" ∧ o2.Path = "/spec" ++ "/template" ∧ o1 ≠ o2 :=
  ⟨by decide,
    (patchDeploymentSpec_no_merging flagMappers "spec.0." "/spec" sampleSelectorTemplate _
      (by decide)).2.2.2 (by decide) (by decide)⟩

/-! ## Well-formed rolling-update values and the template -/

theorem ne_empty_of_length_pos (v : String) (h : v.length > 0) : v ≠ "" := by
  rintro rfl
  simp at h

theorem expandIntOrStringField_is_canonical (m : Fields) (k : String) (x : IntOrString)
    (h : expandIntOrStringField m k = some x) : x.canonical := by
  unfold expandIntOrStringField at h
  cases hg : getString m k with
  | none => simp [hg] at h
  | some v =>
    rw [hg] at h
    simp only at h
    by_cases hl : v.length > 0
    · rw [if_pos hl] at h
      cases ha : atoi v with
      | none =>
        rw [ha] at h
        simp only [Option.some.injEq] at h
        subst h
        exact Or.inr ⟨rfl, rfl, ne_empty_of_length_pos v hl, ha⟩
      | some i =>
        rw [ha] at h
        simp only [Option.some.injEq] at h
        subst h
        exact Or.inl ⟨rfl, inInt32_wrap32 i, rfl⟩
    · rw [if_neg hl] at h
      cases h

/-- C17 (counterexample): `max_surge = "-5"` gives the integer form holding the negative
integer -5, and `max_unavailable = "2147483648"` gives the integer form holding
-2147483648. -/
theorem expandRollingUpdateReferance_negative :
    expandRollingUpdateReferance [Value.map [("max_surge", Value.str "-5"),
        ("max_unavailable", Value.str "2147483648")]] =
      some (some ⟨some ⟨IntStrType.Int, -2147483648, ""⟩, some ⟨IntStrType.Int, -5, ""⟩⟩) := by
  decide

/-- C17 (amended): each of `MaxSurge` and `MaxUnavailable` of a policy that
`expandRollingUpdateReferance` returns is unset or in exactly one form: the integer form
holding a 32-bit integer, of either sign, with an empty string value, or the string form
holding a non-empty string that `strconv.Atoi` rejects with a zero integer value. -/
theorem expandRollingUpdateReferance_well_formed (inp : List Value)
    (ru : RollingUpdateDeployment)
    (h : expandRollingUpdateReferance inp = some (some ru)) :
    (∀ x, ru.MaxSurge = some x → x.canonical) ∧
    (∀ x, ru.MaxUnavailable = some x → x.canonical) := by
  unfold expandRollingUpdateReferance at h
  cases inp with
  | nil =>
    simp only [Option.some.injEq] at h
    subst h
    exact ⟨fun x hx => (by cases hx), fun x hx => (by cases hx)⟩
  | cons v rest =>
    cases v with
    | map m =>
      simp only [Option.some.injEq] at h
      subst h
      exact ⟨fun x hx => expandIntOrStringField_is_canonical m "max_surge" x hx,
        fun x hx => expandIntOrStringField_is_canonical m "max_unavailable" x hx⟩
    | nil =>
      simp only [Option.some.injEq] at h
      subst h
      exact ⟨fun x hx => (by cases hx), fun x hx => (by cases hx)⟩
    | _ => cases h

/-- C17 (amended) at `max_surge = "5"` and `max_unavailable = "25%"`. -/
theorem expandRollingUpdateReferance_well_formed_witness :
    expandRollingUpdateReferance
      [Value.map [("max_surge", Value.str "5"), ("max_unavailable", Value.str "25%")]] =
      some (some ⟨some ⟨IntStrType.String, 0, "25%"⟩, some ⟨IntStrType.Int, 5, ""⟩⟩) ∧
    (⟨IntStrType.Int, 5, ""⟩ : IntOrString).canonical ∧
    (⟨IntStrType.String, 0, "25%"⟩ : IntOrString).canonical :=
  have h := expandRollingUpdateReferance_well_formed
    [Value.map [("max_surge", Value.str "5"), ("max_unavailable", Value.str "25%")]]
    ⟨some ⟨IntStrType.String, 0, "25%"⟩, some ⟨IntStrType.Int, 5, ""⟩⟩ (by decide)
  ⟨by decide, h.1 _ rfl, h.2 _ rfl⟩

/-- C18 (the code on every tree): whatever the tree holds under `template`, the spec that
`expandDeploymentSpec` returns has the zero-valued `Template`. -/
theorem expandDeploymentSpec_template_zero {Meta Pod : Type} [Inhabited Meta]
    [Inhabited Pod] (inp : List Value) (s : DeploymentSpec Meta Pod)
    (h : expandDeploymentSpec inp = some s) : s.Template = PodTemplateSpec.zero := by
  cases inp with
  | nil => cases h; rfl
  | cons v rest =>
    cases v with
    | map m => exact (expandDeploymentSpec_fields m rest s h).1
    | nil => cases h; rfl
    | _ => cases h

/-- C18 at a tree with a non-empty template block: `expandTemplateReferance` gives a
template that is not zero-valued, and `expandDeploymentSpec` returns the zero-valued
spec. -/
theorem expandDeploymentSpec_template_zero_witness :
    expandTemplateReferance flagMappers sampleTemplate = some (⟨true, true⟩, none) ∧
    (expandDeploymentSpec [Value.map [("template", Value.list sampleTemplate)]] :
      Option (DeploymentSpec Bool Bool)) = some DeploymentSpec.zero ∧
    (DeploymentSpec.zero : DeploymentSpec Bool Bool).Template = ⟨false, false⟩ :=
  ⟨by decide, by decide,
    expandDeploymentSpec_template_zero
      [Value.map [("template", Value.list sampleTemplate)]] DeploymentSpec.zero (by decide)⟩

/-! ## The swallowed template error -/

theorem asInt_eq_some (v : Value) (n : Int) (h : v.asInt = some n) : v = Value.int n := by
  cases v <;> simp [Value.asInt] at h
  rw [h]

theorem asBool_eq_some (v : Value) (b : Bool) (h : v.asBool = some b) : v = Value.bool b := by
  cases v <;> simp [Value.asBool] at h
  rw [h]

section PatchAgree

variable {Meta Pod : Type} [Inhabited Meta] [Inhabited Pod]

theorem patchDeploymentSpec_changed_op (K : Mappers Meta Pod) (pfx pathPrefix : String)
    (d : ResourceData) (ops : List (PatchOperation Meta Pod))
    (h : patchDeploymentSpec K pfx pathPrefix d = some ops)
    (f : String × String) (hf : f ∈ fieldTable) (hc : d.HasChange (pfx ++ f.1) = true) :
    ∃ v, specValue K f.1 (d.Get (pfx ++ f.1)) = some v ∧
      ReplaceOperation (pathPrefix ++ "/" ++ f.2) v ∈ ops := by
  obtain ⟨es, rfl, hF⟩ := patchDeploymentSpec_decompose K pfx pathPrefix d ops h
  obtain ⟨op, hop, h1, h2, h3⟩ := emitsField_changed K pfx pathPrefix d fieldTable es hF f hf hc
  refine ⟨op.Value, h3, ?_⟩
  have : ReplaceOperation (pathPrefix ++ "/" ++ f.2) op.Value = op := by
    obtain ⟨k, p, v⟩ := op
    simp only at h1 h2
    subst h1 h2
    rfl
  rw [this]
  exact hop

theorem expandTemplateReferance_error_zero (K : Mappers Meta Pod) (l : List Value)
    (t : PodTemplateSpec Meta Pod) (err : String)
    (h : expandTemplateReferance K l = some (t, some err)) : t = PodTemplateSpec.zero := by
  unfold expandTemplateReferance at h
  cases l with
  | nil => simp at h
  | cons v rest =>
    cases v with
    | map m =>
      simp only [Option.bind_eq_some] at h
      obtain ⟨pt, _, h2⟩ := h
      cases hs : m.lookup "spec" with
      | none => rw [hs] at h2; simp at h2
      | some w =>
        rw [hs] at h2
        simp only [Option.bind_eq_some, Option.map_eq_some'] at h2
        obtain ⟨l2, _, r, _, hr⟩ := h2
        cases hr2 : r.2 with
        | none => rw [hr2] at hr; simp at hr
        | some e =>
          rw [hr2] at hr
          simp only [Prod.mk.injEq] at hr
          exact hr.1.symm
    | nil => simp at h
    | _ => cases h

/-- C19: when the template changed and `expandTemplateReferance` returns an error for its
new value, the template it returns is zero-valued, every list that `patchDeploymentSpec`
returns holds the replace operation for `pathPrefix + "/template"` with that zero-valued
template, and the patcher returns its list (it has no error result) whenever the other
changed fields have values of the asserted shape. -/
theorem patchDeploymentSpec_template_error_swallowed (K : Mappers Meta Pod)
    (pfx pathPrefix : String) (d : ResourceData) (l : List Value)
    (t : PodTemplateSpec Meta Pod) (err : String)
    (hc : d.HasChange (pfx ++ "template") = true)
    (hg : d.Get (pfx ++ "template") = Value.list l)
    (he : expandTemplateReferance K l = some (t, some err)) :
    t = PodTemplateSpec.zero ∧
    (∀ ops, patchDeploymentSpec K pfx pathPrefix d = some ops →
      ReplaceOperation (pathPrefix ++ "/template")
        (PatchValue.template PodTemplateSpec.zero) ∈ ops) ∧
    ((∀ f ∈ fieldTable, f.1 ≠ "template" → d.HasChange (pfx ++ f.1) = true →
        (specValue K f.1 (d.Get (pfx ++ f.1))).isSome = true) →
      (patchDeploymentSpec K pfx pathPrefix d).isSome = true) := by
  have hz := expandTemplateReferance_error_zero K l t err he
  have hv : specValue K "template" (d.Get (pfx ++ "template")) =
      some (PatchValue.template PodTemplateSpec.zero) := by
    simp [specValue, hg, Value.asList, he, hz]
  refine ⟨hz, ?_, ?_⟩
  · intro ops hops
    obtain ⟨v, h1, h2⟩ := patchDeploymentSpec_changed_op K pfx pathPrefix d ops hops
      ("template", "template") (by unfold fieldTable; decide) hc
    rw [hv] at h1
    simp only [Option.some.injEq] at h1
    subst h1
    have hp : pathPrefix ++ "/" ++ "template" = pathPrefix ++ "/template" := by
      rw [String.append_assoc]; rfl
    rw [← hp]
    exact h2
  · intro hw
    apply patchDeploymentSpec_defined
    intro f hf hch
    by_cases hft : f.1 = "template"
    · rw [hft, hv]; rfl
    · exact hw f hf hft hch

/-- C19 at a changed template whose pod-spec block the mapper rejects: the expander had
already set the metadata, and the one operation returned carries the zero-valued
template. -/
theorem patchDeploymentSpec_template_error_swallowed_witness :
    expandTemplateReferance failingMappers sampleTemplate =
      some (⟨false, false⟩, some "invalid pod spec") ∧
    patchDeploymentSpec failingMappers "spec.0." "/spec"
        (changeOf "template" (Value.list sampleTemplate)) =
      some [ReplaceOperation "/spec/template" (PatchValue.template ⟨false, false⟩)] ∧
    ReplaceOperation ("/spec" ++ "/template")
        (PatchValue.template (PodTemplateSpec.zero : PodTemplateSpec Bool Bool)) ∈
      [ReplaceOperation "/spec/template" (PatchValue.template ⟨false, false⟩)] :=
  ⟨by decide, by decide,
    (patchDeploymentSpec_template_error_swallowed failingMappers "spec.0." "/spec"
      (changeOf "template" (Value.list sampleTemplate)) sampleTemplate ⟨false, false⟩
      "invalid pod spec" (by decide) rfl (by decide)).2.1 _ (by decide)⟩

end PatchAgree

/-! ## Create and update on the scalar fields -/

section Agree

variable {Meta Pod : Type} [Inhabited Meta] [Inhabited Pod]

theorem patchDeploymentSpec_changed_int (K : Mappers Meta Pod) (pfx pathPrefix : String)
    (d : ResourceData) (ops : List (PatchOperation Meta Pod))
    (h : patchDeploymentSpec K pfx pathPrefix d = some ops)
    (f : String × String) (hf : f ∈ fieldTable)
    (hk : ∀ v, specValue K f.1 v = v.asInt.map PatchValue.int)
    (hc : d.HasChange (pfx ++ f.1) = true) :
    ∃ n, d.Get (pfx ++ f.1) = Value.int n ∧
      ReplaceOperation (pathPrefix ++ "/" ++ f.2) (PatchValue.int n) ∈ ops := by
  obtain ⟨v, h1, h2⟩ := patchDeploymentSpec_changed_op K pfx pathPrefix d ops h f hf hc
  rw [hk, Option.map_eq_some'] at h1
  obtain ⟨n, hn, rfl⟩ := h1
  exact ⟨n, asInt_eq_some _ _ hn, h2⟩

/-- C20 (counterexample): for a new replicas value of 0 the patcher sends 0 while
`expandDeploymentSpec` leaves `Replicas` nil; and for a new `min_ready_seconds` of
4294967296 the patcher sends 4294967296 while `expandDeploymentSpec` assigns 0. -/
theorem patch_expand_disagree :
    patchDeploymentSpec sampleMappers "spec.0." "/spec" (changeOf "replicas" (Value.int 0)) =
      some [ReplaceOperation "/spec/replicas" (PatchValue.int 0)] ∧
    (expandDeploymentSpec [Value.map [("replicas", Value.int 0)]] :
      Option (DeploymentSpec Unit Unit)) = some DeploymentSpec.zero ∧
    (DeploymentSpec.zero : DeploymentSpec Unit Unit).Replicas = none ∧
    patchDeploymentSpec sampleMappers "spec.0." "/spec"
        (changeOf "min_ready_seconds" (Value.int 4294967296)) =
      some [ReplaceOperation "/spec/minReadySeconds" (PatchValue.int 4294967296)] ∧
    (expandDeploymentSpec [Value.map [("min_ready_seconds", Value.int 4294967296)]] :
      Option (DeploymentSpec Unit Unit)) = some DeploymentSpec.zero ∧
    (DeploymentSpec.zero : DeploymentSpec Unit Unit).MinReadySeconds = 0 := by
  decide

/-- C20 (amended): let the patcher return `ops` and `expandDeploymentSpec` return `s` on a
tree that holds, under the five scalar keys, the new values of the resource. For each
scalar field that changed, `ops` holds the replace operation with the new value, and for a
value in the 32-bit range `s` holds the same value in its field: always for
`min_ready_seconds`, `paused` and `progress_deadline_seconds` (0 included), and for
`replicas` and `revision_history_limit` when the value is positive. -/
theorem patch_expand_agree (K : Mappers Meta Pod) (pfx pathPrefix : String)
    (d : ResourceData) (m : Fields) (rest : List Value)
    (ops : List (PatchOperation Meta Pod)) (s : DeploymentSpec Meta Pod)
    (hp : patchDeploymentSpec K pfx pathPrefix d = some ops)
    (he : expandDeploymentSpec (Value.map m :: rest) = some s)
    (hsame : ∀ k ∈ ["min_ready_seconds", "paused", "progress_deadline_seconds", "replicas",
      "revision_history_limit"], m.lookup k = some (d.Get (pfx ++ k))) :
    (d.HasChange (pfx ++ "min_ready_seconds") = true →
      ∃ n, ReplaceOperation (pathPrefix ++ "/minReadySeconds") (PatchValue.int n) ∈ ops ∧
        (inInt32 n → s.MinReadySeconds = n)) ∧
    (d.HasChange (pfx ++ "paused") = true →
      ∃ b, ReplaceOperation (pathPrefix ++ "/paused") (PatchValue.bool b) ∈ ops ∧
        s.Paused = b) ∧
    (d.HasChange (pfx ++ "progress_deadline_seconds") = true →
      ∃ n, ReplaceOperation (pathPrefix ++ "/progressDeadlineSeconds")
          (PatchValue.int n) ∈ ops ∧
        (inInt32 n → s.ProgressDeadlineSeconds = some n)) ∧
    (d.HasChange (pfx ++ "replicas") = true →
      ∃ n, ReplaceOperation (pathPrefix ++ "/replicas") (PatchValue.int n) ∈ ops ∧
        (inInt32 n → 0 < n → s.Replicas = some n)) ∧
    (d.HasChange (pfx ++ "revision_history_limit") = true →
      ∃ n, ReplaceOperation (pathPrefix ++ "/revisionHistoryLimit")
          (PatchValue.int n) ∈ ops ∧
        (inInt32 n → 0 < n → s.RevisionHistoryLimit = some n)) := by
  obtain ⟨_, f1, f2, f3, f4, f5⟩ := expandDeploymentSpec_fields m rest s he
  simp only [List.mem_cons, List.mem_singleton, List.not_mem_nil, or_false,
    forall_eq_or_imp, forall_eq] at hsame
  obtain ⟨g1, g2, g3, g4, g5⟩ := hsame
  refine ⟨?_, ?_, ?_, ?_, ?_⟩
  · intro hc
    obtain ⟨n, hn, hop⟩ := patchDeploymentSpec_changed_int K pfx pathPrefix d ops hp
      ("min_ready_seconds", "minReadySeconds") (by unfold fieldTable; decide)
      (by intro v; simp [specValue]) hc
    refine ⟨n, ?_, ?_⟩
    · have hq : pathPrefix ++ "/" ++ "minReadySeconds" = pathPrefix ++ "/minReadySeconds" := by
        rw [String.append_assoc]; rfl
      rw [← hq]; exact hop
    · intro hr
      rw [f1 n (by rw [g1]; exact congrArg some hn), wrap32_of_inInt32 n hr]
  · intro hc
    obtain ⟨v, h1, h2⟩ := patchDeploymentSpec_changed_op K pfx pathPrefix d ops hp
      ("paused", "paused") (by unfold fieldTable; decide) hc
    have h3 : (d.Get (pfx ++ "paused")).asBool.map PatchValue.bool = some v := by
      simpa [specValue] using h1
    rw [Option.map_eq_some'] at h3
    obtain ⟨b, hb, rfl⟩ := h3
    refine ⟨b, ?_, ?_⟩
    · have hq : pathPrefix ++ "/" ++ "paused" = pathPrefix ++ "/paused" := by
        rw [String.append_assoc]; rfl
      rw [← hq]; exact h2
    · exact f2 b (by rw [g2]; exact congrArg some (asBool_eq_some _ _ hb))
  · intro hc
    obtain ⟨n, hn, hop⟩ := patchDeploymentSpec_changed_int K pfx pathPrefix d ops hp
      ("progress_deadline_seconds", "progressDeadlineSeconds")
      (by unfold fieldTable; decide) (by intro v; simp [specValue]) hc
    refine ⟨n, ?_, ?_⟩
    · have hq : pathPrefix ++ "/" ++ "progressDeadlineSeconds" =
          pathPrefix ++ "/progressDeadlineSeconds" := by
        rw [String.append_assoc]; rfl
      rw [← hq]; exact hop
    · intro hr
      rw [f3 n (by rw [g3]; exact congrArg some hn), wrap32_of_inInt32 n hr]
  · intro hc
    obtain ⟨n, hn, hop⟩ := patchDeploymentSpec_changed_int K pfx pathPrefix d ops hp
      ("replicas", "replicas") (by unfold fieldTable; decide)
      (by intro v; simp [specValue]) hc
    refine ⟨n, ?_, ?_⟩
    · have hq : pathPrefix ++ "/" ++ "replicas" = pathPrefix ++ "/replicas" := by
        rw [String.append_assoc]; rfl
      rw [← hq]; exact hop
    · intro hr hpos
      rw [f4 n (by rw [g4]; exact congrArg some hn), if_pos hpos, wrap32_of_inInt32 n hr]
  · intro hc
    obtain ⟨n, hn, hop⟩ := patchDeploymentSpec_changed_int K pfx pathPrefix d ops hp
      ("revision_history_limit", "revisionHistoryLimit") (by unfold fieldTable; decide)
      (by intro v; simp [specValue]) hc
    refine ⟨n, ?_, ?_⟩
    · have hq : pathPrefix ++ "/" ++ "revisionHistoryLimit" =
          pathPrefix ++ "/revisionHistoryLimit" := by
        rw [String.append_assoc]; rfl
      rw [← hq]; exact hop
    · intro hr hpos
      rw [f5 n (by rw [g5]; exact congrArg some hn), if_pos hpos, wrap32_of_inInt32 n hr]

end Agree

/-- C20 (amended) at the configuration of `TestExpandDeploymentSpec` with replicas changed
to 7: the patcher sends 7 and `expandDeploymentSpec` sets `Replicas` to 7. -/
theorem patch_expand_agree_witness :
    patchDeploymentSpec sampleMappers "spec.0." "/spec" testSpecChange =
      some [ReplaceOperation "/spec/replicas" (PatchValue.int 7)] ∧
    (expandDeploymentSpec [Value.map testSpecInput] : Option (DeploymentSpec Unit Unit)) =
      some { Replicas := some 7, Selector := some LabelSelector.zero,
             Template := PodTemplateSpec.zero, Strategy := DeploymentStrategy.zero,
             MinReadySeconds := 10, RevisionHistoryLimit := some 6, Paused := false,
             RollbackTo := some RollbackConfig.zero, ProgressDeadlineSeconds := some 5 } ∧
    ∃ n, ReplaceOperation ("/spec" ++ "/replicas") (PatchValue.int n) ∈
        [ReplaceOperation "/spec/replicas" (PatchValue.int 7 : PatchValue Unit Unit)] ∧
      (inInt32 n → 0 < n → (some 7 : Option Int) = some n) :=
  ⟨by decide, by decide,
    (patch_expand_agree sampleMappers "spec.0." "/spec" testSpecChange testSpecInput []
      [ReplaceOperation "/spec/replicas" (PatchValue.int 7)]
      { Replicas := some 7, Selector := some LabelSelector.zero,
        Template := PodTemplateSpec.zero, Strategy := DeploymentStrategy.zero,
        MinReadySeconds := 10, RevisionHistoryLimit := some 6, Paused := false,
        RollbackTo := some RollbackConfig.zero, ProgressDeadlineSeconds := some 5 }
      (by decide) (by decide)
      (by
        intro k hk
        simp only [List.mem_cons, List.mem_singleton, List.not_mem_nil, or_false] at hk
        rcases hk with rfl | rfl | rfl | rfl | rfl <;> rfl)).2.2.2.1 (by decide)⟩

/-! ## Schema keys, truncation and the strategy expander -/

/-- C21 (the code on every status): the map `flattenDeploymentStatus` returns has the
key `update_replicas`, which the status schema does not declare, and no key
`updated_replicas`, which the schema declares and `expandDeploymentStatus` reads:
`UpdatedReplicas` is written under one key and read from another. -/
theorem flattenDeploymentStatus_update_replicas_key (st : DeploymentStatus) (n : Int) :
    (∃ m : Fields, flattenDeploymentStatus st = [Value.map m] ∧
      keysOf m = ["observed_generation", "replicas", "update_replicas", "ready_replicas",
        "available_replicas", "unavailable_replicas", "conditions"] ∧
      m.lookup "update_replicas" = some (Value.int32 st.UpdatedReplicas) ∧
      m.lookup "updated_replicas" = none) ∧
    "update_replicas" ∉ statusSchemaKeys ∧
    "updated_replicas" ∈ statusSchemaKeys ∧
    expandDeploymentStatus [Value.map [("updated_replicas", Value.int n)]] =
      some { DeploymentStatus.zero with UpdatedReplicas := wrap32 n } ∧
    expandDeploymentStatus [Value.map [("update_replicas", Value.int n)]] =
      some DeploymentStatus.zero := by
  refine ⟨⟨_, rfl, rfl, rfl, rfl⟩, by decide, by decide, rfl, rfl⟩

theorem lookup_eq_none_of_not_mem_keys (m : Fields) (k : String) (h : k ∉ keysOf m) :
    m.lookup k = none := by
  induction m with
  | nil => rfl
  | cons e rest ih =>
    obtain ⟨a, b⟩ := e
    simp only [keysOf, List.map_cons, List.mem_cons, not_or] at h
    have hb : (k == a) = false := by simpa using h.1
    simp only [List.lookup, hb]
    exact ih h.2

theorem expandDeploymentSpec_progress_unset {Meta Pod : Type} [Inhabited Meta]
    [Inhabited Pod] (m : Fields) (rest : List Value) (s : DeploymentSpec Meta Pod)
    (hk : m.lookup "progress_deadline_seconds" = none)
    (h : expandDeploymentSpec (Value.map m :: rest) = some s) :
    s.ProgressDeadlineSeconds = none := by
  unfold expandDeploymentSpec at h
  simp only [Option.bind_eq_some] at h
  obtain ⟨s1, h1, s2, h2, s3, h3, s4, h4, h5⟩ := h
  have e5 := strategy_step_scalars _ _ _ h5
  have e4 := rollback_step_scalars _ _ _ h4
  have e3 := selector_step_scalars _ _ _ h3
  rw [e4, e3] at e5
  clear h3 h4 h5 e3 e4
  have e1 : s1.ProgressDeadlineSeconds = none := by
    cases hl : m.lookup "min_ready_seconds" with
    | none =>
      rw [hl] at h1
      simp only [Option.some.injEq] at h1
      subst h1
      rfl
    | some v =>
      rw [hl] at h1
      simp only [Option.map_eq_some'] at h1
      obtain ⟨n, _, rfl⟩ := h1
      rfl
  have e2 : s2.ProgressDeadlineSeconds = s1.ProgressDeadlineSeconds := by
    cases hl : m.lookup "paused" with
    | none =>
      rw [hl] at h2
      simp only [Option.some.injEq] at h2
      subst h2
      rfl
    | some v =>
      rw [hl] at h2
      simp only [Option.map_eq_some'] at h2
      obtain ⟨n, _, rfl⟩ := h2
      rfl
  clear h1 h2
  have e := e5.trans (ints_step_scalars (getInt m "progress_deadline_seconds")
    (getInt m "replicas") (getInt m "revision_history_limit") s2)
  clear e5
  simp only [scalarPart, Prod.mk.injEq] at e
  obtain ⟨_, _, _, c4, _, _⟩ := e
  have hg : getInt m "progress_deadline_seconds" = none := by simp [getInt, hk]
  rw [c4, hg, e2, e1]

/-- C22 (the code against the schema): of the nine keys that `patchDeploymentSpec`
queries, `progress_deadline_seconds` is not a key the spec schema declares (the schema
declares it with a trailing blank); `flattenDeploymentSpec` writes the undeclared key and
never the declared one; and on every tree whose keys are all declared by the schema,
`expandDeploymentSpec` leaves `ProgressDeadlineSeconds` nil. -/
theorem progress_deadline_key_not_in_schema {Meta Pod : Type} [Inhabited Meta]
    [Inhabited Pod] (K : Mappers Meta Pod) (s : DeploymentSpec Meta Pod)
    (tree : List Value) (m : Fields) (rest : List Value) (s2 : DeploymentSpec Meta Pod) :
    (fieldTable.map Prod.fst).filter (fun k => decide (k ∉ specSchemaKeys)) =
      ["progress_deadline_seconds"] ∧
    "progress_deadline_seconds " ∈ specSchemaKeys ∧
    (flattenDeploymentSpec K s = some tree →
      ∃ mm : Fields, tree = [Value.map mm] ∧
        mm.lookup "progress_deadline_seconds" =
          s.ProgressDeadlineSeconds.map Value.int32 ∧
        mm.lookup "progress_deadline_seconds " = none) ∧
    ((∀ k ∈ keysOf m, k ∈ specSchemaKeys) →
      expandDeploymentSpec (Value.map m :: rest) = some s2 →
      s2.ProgressDeadlineSeconds = none) := by
  refine ⟨by decide, by decide, ?_, ?_⟩
  · intro h
    unfold flattenDeploymentSpec at h
    simp only [Option.bind_eq_some, Option.map_eq_some'] at h
    obtain ⟨sel, _, tpl, _, st, _, rb, _, rfl⟩ := h
    refine ⟨_, rfl, ?_⟩
    cases s.Replicas <;> cases s.RevisionHistoryLimit <;>
      cases s.ProgressDeadlineSeconds <;>
      simp [lookup_setKey_ne, lookup_setKey_self]
  · intro hk h
    apply expandDeploymentSpec_progress_unset m rest s2 _ h
    apply lookup_eq_none_of_not_mem_keys
    intro hmem
    have := hk _ hmem
    revert this
    decide

/-- C22 at concrete trees: under the key the code reads, an explicit 0 sets the field;
under the key the schema declares, the same value is ignored. -/
theorem progress_deadline_key_not_in_schema_witness :
    (expandDeploymentSpec [Value.map [("progress_deadline_seconds", Value.int 0)]] :
      Option (DeploymentSpec Unit Unit)) =
      some { (DeploymentSpec.zero : DeploymentSpec Unit Unit) with
        ProgressDeadlineSeconds := some 0 } ∧
    (expandDeploymentSpec [Value.map [("progress_deadline_seconds ", Value.int 0)]] :
      Option (DeploymentSpec Unit Unit)) = some DeploymentSpec.zero ∧
    (DeploymentSpec.zero : DeploymentSpec Unit Unit).ProgressDeadlineSeconds = none :=
  ⟨by decide, by decide,
    (progress_deadline_key_not_in_schema sampleMappers sampleSpec []
      [("progress_deadline_seconds ", Value.int 0)] [] DeploymentSpec.zero).2.2.2
      (by decide) (by decide)⟩

/-- C23 (counterexample): `"9223372036854775808"` is the decimal integer `2^63`, outside the
32-bit range, but `strconv.Atoi` rejects it (it is beyond the 64-bit range), and
`expandRollingUpdateReferance` keeps it in the string form. -/
theorem expandRollingUpdateReferance_beyond_int64 :
    parseNat "9223372036854775808".toList = some 9223372036854775808 ∧
    ¬ inInt32 9223372036854775808 ∧
    atoi "9223372036854775808" = none ∧
    expandRollingUpdateReferance
      [Value.map [("max_surge", Value.str "9223372036854775808")]] =
      some (some ⟨none, some ⟨IntStrType.String, 0, "9223372036854775808"⟩⟩) := by
  refine ⟨by decide, by decide, by decide, by decide⟩

/-- C23 (amended): for a string `v` under `max_surge` (likewise `max_unavailable`) that
`strconv.Atoi` parses as the integer `n`, `expandRollingUpdateReferance` returns the
integer form, with an empty string value, holding `n` reduced modulo `2^32` into the
signed 32-bit range: the stored value is in the range and differs from `n` by a multiple
of `2^32`; it is `n` when `n` is in the range and is not `n` otherwise. -/
theorem expandRollingUpdateReferance_truncates (m : Fields) (rest : List Value)
    (v : String) (n : Int) (hn : atoi v = some n) :
    ∃ ru : RollingUpdateDeployment,
      expandRollingUpdateReferance (Value.map m :: rest) = some (some ru) ∧
      (m.lookup "max_surge" = some (Value.str v) →
        ru.MaxSurge = some ⟨IntStrType.Int, wrap32 n, ""⟩) ∧
      (m.lookup "max_unavailable" = some (Value.str v) →
        ru.MaxUnavailable = some ⟨IntStrType.Int, wrap32 n, ""⟩) ∧
      inInt32 (wrap32 n) ∧ (wrap32 n - n) % 4294967296 = 0 ∧
      (inInt32 n → wrap32 n = n) ∧ (¬ inInt32 n → wrap32 n ≠ n) := by
  have hv := ne_empty_of_atoi v n hn
  refine ⟨_, rfl, ?_, ?_, inInt32_wrap32 n, ?_, wrap32_of_inInt32 n, ?_⟩
  · intro hk
    have h := expandIntOrStringField_str m "max_surge" v hk hv
    rw [hn] at h
    exact h
  · intro hk
    have h := expandIntOrStringField_str m "max_unavailable" v hk hv
    rw [hn] at h
    exact h
  · unfold wrap32
    omega
  · intro hr heq
    apply hr
    rw [← heq]
    exact inInt32_wrap32 n

/-- C23 (amended) at `"4294967296"`, which becomes the integer 0, and `"-2147483649"`, which becomes
2147483647. -/
theorem expandRollingUpdateReferance_truncates_witness :
    atoi "4294967296" = some 4294967296 ∧
    ∃ ru : RollingUpdateDeployment,
      expandRollingUpdateReferance [Value.map [("max_surge", Value.str "4294967296"),
        ("max_unavailable", Value.str "-2147483649")]] = some (some ru) ∧
      ru.MaxSurge = some ⟨IntStrType.Int, 0, ""⟩ ∧
      ru.MaxUnavailable = some ⟨IntStrType.Int, 2147483647, ""⟩ := by
  obtain ⟨ru, h, hs, _, _⟩ := expandRollingUpdateReferance_truncates
    [("max_surge", Value.str "4294967296"), ("max_unavailable", Value.str "-2147483649")] []
    "4294967296" 4294967296 (by decide)
  obtain ⟨ru2, h2, _, hu, _⟩ := expandRollingUpdateReferance_truncates
    [("max_surge", Value.str "4294967296"), ("max_unavailable", Value.str "-2147483649")] []
    "-2147483649" (-2147483649) (by decide)
  have : ru2 = ru := by
    rw [h] at h2
    simp only [Option.some.injEq] at h2
    exact h2.symm
  subst this
  exact ⟨by decide, ru2, h, hs rfl, hu rfl⟩

/-- C24: on a strategy tree whose first element is a map, whenever
`expandStrategyReferance` returns, a string under `type` is copied as it is into `Type`,
and `RollingUpdate` is nil exactly when the key `rolling_update` is absent; with the key
absent the function returns a strategy with a nil `RollingUpdate`, and with the key present
and holding an empty list it returns a strategy with a non-nil policy whose `MaxSurge`
and `MaxUnavailable` are both unset. -/
theorem expandStrategyReferance_spec (m : Fields) (rest : List Value) :
    (∀ st, expandStrategyReferance (Value.map m :: rest) = some st →
      (∀ t, m.lookup "type" = some (Value.str t) → st.Typ = t) ∧
      (st.RollingUpdate = none ↔ m.lookup "rolling_update" = none)) ∧
    (m.lookup "rolling_update" = none →
      ∃ st, expandStrategyReferance (Value.map m :: rest) = some st ∧
        st.RollingUpdate = none) ∧
    (m.lookup "rolling_update" = some (Value.list []) →
      ∃ st, expandStrategyReferance (Value.map m :: rest) = some st ∧
        st.RollingUpdate = some ⟨none, none⟩) := by
  refine ⟨?_, ?_, ?_⟩
  · intro st h
    unfold expandStrategyReferance at h
    simp only at h
    cases hr : m.lookup "rolling_update" with
    | none =>
      rw [hr] at h
      simp only [Option.some.injEq] at h
      subst h
      refine ⟨?_, ?_⟩
      · intro t ht
        simp [getString, ht]
      · have hz : (match getString m "type" with
            | some v => { DeploymentStrategy.zero with Typ := v }
            | none => DeploymentStrategy.zero).RollingUpdate = none := by
          cases getString m "type" <;> rfl
        simp [hz]
    | some v =>
      rw [hr] at h
      simp only [Option.bind_eq_some, Option.map_eq_some'] at h
      obtain ⟨l, _, ru, hru, rfl⟩ := h
      refine ⟨?_, ?_⟩
      · intro t ht
        simp [getString, ht]
      · have hne : ru ≠ none := by
          intro hnone
          subst hnone
          unfold expandRollingUpdateReferance at hru
          cases l with
          | nil => simp at hru
          | cons w tl =>
            cases w <;> simp at hru
        simp [hne]
  · intro hr
    refine ⟨_, by simp only [expandStrategyReferance, hr]; rfl, ?_⟩
    cases getString m "type" <;> rfl
  · intro hr
    refine ⟨_, by simp only [expandStrategyReferance, hr]; rfl, ?_⟩
    cases getString m "type" <;> rfl

/-- C24 at the type `Recreate` with an empty `rolling_update` list, and at a type that no
validation would accept. -/
theorem expandStrategyReferance_spec_witness :
    expandStrategyReferance [Value.map [("type", Value.str "Recreate"),
        ("rolling_update", Value.list [])]] = some ⟨"Recreate", some ⟨none, none⟩⟩ ∧
    expandStrategyReferance [Value.map [("type", Value.str "no such type")]] =
      some ⟨"no such type", none⟩ ∧
    ((⟨"Recreate", some ⟨none, none⟩⟩ : DeploymentStrategy).RollingUpdate = none ↔
      List.lookup "rolling_update" [("type", Value.str "Recreate"),
        ("rolling_update", Value.list [])] = none) :=
  ⟨by decide, by decide,
    ((expandStrategyReferance_spec [("type", Value.str "Recreate"),
      ("rolling_update", Value.list [])] []).1 _ (by decide)).2⟩

end Kubernetes
